import Mathlib

/-!
Verification development for the plan-execute-normalize orchestrator of the
dobb.ai backend (src/agents/orchestrator.py together with the pieces of
src/services/jira_mcp_client.py and src/config.py it reads).

The Python code manipulates JSON-like data (values produced by json.loads and
by the MCP clients), so the embedding works over a `PyVal` universe of such
values.  Python dictionaries are modelled as association lists with the
insertion-order update semantics of dict assignment; Python truthiness,
`or`-chaining, `str()`, `.lower()`, `.strip()`, substring tests and the
handful of regular expressions used by the orchestrator are implemented
explicitly below, following the source expression by expression.  Ambient
configuration (`config.settings`) is passed as an explicit `Settings` record;
remote I/O (tool-catalog fetches and tool calls) is passed as explicit
outcome values of type `Except PyExc PyVal`, where `PyExc` carries the Python
exception class, since the orchestrator's error handling dispatches on it.
-/

set_option maxHeartbeats 2000000
set_option maxRecDepth 8192

namespace Dobb

/-- JSON-like Python value universe used by the orchestrator. -/
inductive PyVal where
  | none
  | bool (b : Bool)
  | int (n : Int)
  | str (s : String)
  | list (xs : List PyVal)
  | dict (kvs : List (String × PyVal))
deriving Repr

/-- A Python dict over string keys, in insertion order. -/
abbrev PyDict := List (String × PyVal)

/-- Python truthiness of a value (`bool(v)`). -/
def pyTruthy : PyVal → Bool
  | .none => false
  | .bool b => b
  | .int n => n != 0
  | .str s => s != ""
  | .list xs => !xs.isEmpty
  | .dict d => !d.isEmpty

/-- Python `a or b`: the first operand when truthy, otherwise the second. -/
def pyOr (a b : PyVal) : PyVal := if pyTruthy a then a else b

/-- Lookup in a Python dict: `d.get(k)` without a default, as an `Option`. -/
def dget (d : PyDict) (k : String) : Option PyVal :=
  (d.find? (fun p => p.1 = k)).map (fun p => p.2)

/-- Python `d.get(k, v)`. -/
def dgetD (d : PyDict) (k : String) (v : PyVal) : PyVal := (dget d k).getD v

/-- Python `d.get(k)` (missing keys give `None`). -/
def dgetN (d : PyDict) (k : String) : PyVal := dgetD d k PyVal.none

/-- Python `k in d`. -/
def hasKey (d : PyDict) (k : String) : Bool := (dget d k).isSome

/-- Python `d[k] = v`: update in place if the key exists, else append.
A Python dict holds each key at most once, so replacing the first occurrence
and keeping the tail realizes exactly the in-place update. -/
def dset (d : PyDict) (k : String) (v : PyVal) : PyDict :=
  match d with
  | [] => [(k, v)]
  | p :: ps => if p.1 = k then (k, v) :: ps else p :: dset ps k v

/-- Single-quote character, used when rendering Python reprs. -/
def sq : String := String.singleton (Char.ofNat 39)

mutual

/-- Python `repr()` restricted to the JSON-like value universe. -/
def pyRepr : PyVal → String
  | .none => "None"
  | .bool true => "True"
  | .bool false => "False"
  | .int n => toString n
  | .str s => sq ++ s ++ sq
  | .list xs => "[" ++ pyReprList xs ++ "]"
  | .dict d => "\x7b" ++ pyReprDict d ++ "\x7d"

/-- Comma-separated reprs of a list of values. -/
def pyReprList : List PyVal → String
  | [] => ""
  | [x] => pyRepr x
  | x :: xs => pyRepr x ++ ", " ++ pyReprList xs

/-- Comma-separated reprs of a dict's entries. -/
def pyReprDict : List (String × PyVal) → String
  | [] => ""
  | [(k, v)] => sq ++ k ++ sq ++ ": " ++ pyRepr v
  | (k, v) :: xs => sq ++ k ++ sq ++ ": " ++ pyRepr v ++ ", " ++ pyReprDict xs

end

/-- Python `str()` on the JSON-like value universe. -/
def pyStrOf : PyVal → String
  | .none => "None"
  | .bool true => "True"
  | .bool false => "False"
  | .int n => toString n
  | .str s => s
  | .list xs => pyRepr (.list xs)
  | .dict d => pyRepr (.dict d)

/-- ASCII lower-casing of one character, as Python `str.lower` does on ASCII. -/
def pyLowerChar (c : Char) : Char :=
  if 65 ≤ c.toNat ∧ c.toNat ≤ 90 then Char.ofNat (c.toNat + 32) else c

/-- ASCII lower-casing of a string (`s.lower()`). -/
def pyLower (s : String) : String := String.mk (s.toList.map pyLowerChar)

/-- Python substring test `needle in hay`. -/
def strIn (needle hay : String) : Bool := decide (needle.toList <:+: hay.toList)

/-- Python whitespace characters (the set stripped by `str.strip`). -/
def isPySpace (c : Char) : Bool :=
  c == ' ' || c == '\t' || c == '\n' || c == '\r' || c == '\x0b' || c == '\x0c'

/-- Python `s.strip()`. -/
def pyStrip (s : String) : String :=
  String.mk (((s.toList.dropWhile isPySpace).reverse.dropWhile isPySpace).reverse)

/-- Python `s.rstrip("/")`. -/
def pyRstripSlash (s : String) : String :=
  String.mk ((s.toList.reverse.dropWhile (fun c => c == '/')).reverse)

/-- Python slicing `s[:n]` (by code points). -/
def pyTake (s : String) (n : Nat) : String := String.mk (s.toList.take n)

/-- Characters of the regex class `[a-z0-9_\-]` (keyword tokens). -/
def isKwChar (c : Char) : Bool :=
  (97 ≤ c.toNat && c.toNat ≤ 122) || c.isDigit || c == '_' || c == '-'

/-- Python `\w` restricted to ASCII: letters, digits and underscore. -/
def isWordChar (c : Char) : Bool := c.isAlphanum || c == '_'

/-- Characters of the regex class `[\w.-]` used for repository names. -/
def isRepoChar (c : Char) : Bool := isWordChar c || c == '.' || c == '-'

/-- Characters of the regex class `[0-9a-f]`. -/
def isHexLower (c : Char) : Bool := c.isDigit || (97 ≤ c.toNat && c.toNat ≤ 102)

/-- Case-insensitive literal match: strip `pat` (given lower-cased) from the
front of `cs`, comparing characters after ASCII lower-casing. -/
def stripLitCI : List Char → List Char → Option (List Char)
  | [], cs => some cs
  | _ :: _, [] => Option.none
  | p :: ps, c :: cs => if pyLowerChar c == p then stripLitCI ps cs else Option.none

/-- Case-sensitive literal match: strip `pat` from the front of `cs`. -/
def stripLitCS : List Char → List Char → Option (List Char)
  | [], cs => some cs
  | _ :: _, [] => Option.none
  | p :: ps, c :: cs => if c == p then stripLitCS ps cs else Option.none

/-- Maximal runs of characters satisfying `p`, i.e. `re.findall` of `[p]+`. -/
def runsAux (p : Char → Bool) : List Char → List Char → List String
  | [], acc => if acc.isEmpty then [] else [String.mk acc.reverse]
  | c :: cs, acc =>
    if p c then runsAux p cs (c :: acc)
    else if acc.isEmpty then runsAux p cs []
    else String.mk acc.reverse :: runsAux p cs []

/-- All maximal runs of `p`-characters in `s`. -/
def findAllRuns (p : Char → Bool) (s : String) : List String := runsAux p s.toList []

/-- One attempt to match `repo:([\w.-]+/[\w.-]+)` (case-insensitive) at the
current position; on success returns the captured group and the rest of the
input after the whole match. -/
def takeRepoPair (cs : List Char) : Option (String × List Char) :=
  match stripLitCI ("repo:".toList) cs with
  | Option.none => Option.none
  | some r1 =>
    let a := r1.takeWhile isRepoChar
    let r2 := r1.dropWhile isRepoChar
    if a.isEmpty then Option.none
    else
      match r2 with
      | '/' :: r3 =>
        let b := r3.takeWhile isRepoChar
        if b.isEmpty then Option.none
        else some (String.mk (a ++ '/' :: b), r3.dropWhile isRepoChar)
      | _ => Option.none

/-- Scanner for `re.findall(r"repo:([\w.-]+/[\w.-]+)", s, re.IGNORECASE)`:
advance one character on failure, continue after the match on success. -/
def repoScanAux : Nat → List Char → List String
  | 0, _ => []
  | _ + 1, [] => []
  | fuel + 1, c :: cs =>
    match takeRepoPair (c :: cs) with
    | some (tok, rest) => tok :: repoScanAux fuel rest
    | Option.none => repoScanAux fuel cs

/-- All `repo:owner/name` capture groups found in a message. -/
def find_repo_tokens (s : String) : List String := repoScanAux s.toList.length s.toList

/-- One attempt to match `github\.com/([\w.-]+)/([\w.-]+)` at the current
position; `ci` selects `re.IGNORECASE`. -/
def takeGithubPair (ci : Bool) (cs : List Char) : Option (String × String) :=
  match (if ci then stripLitCI ("github.com/".toList) cs
         else stripLitCS ("github.com/".toList) cs) with
  | Option.none => Option.none
  | some r1 =>
    let a := r1.takeWhile isRepoChar
    let r2 := r1.dropWhile isRepoChar
    if a.isEmpty then Option.none
    else
      match r2 with
      | '/' :: r3 =>
        let b := r3.takeWhile isRepoChar
        if b.isEmpty then Option.none else some (String.mk a, String.mk b)
      | _ => Option.none

/-- Scanner for `re.search` of the `github.com` pattern: leftmost match. -/
def githubPairScanAux (ci : Bool) : Nat → List Char → Option (String × String)
  | 0, _ => Option.none
  | _ + 1, [] => Option.none
  | fuel + 1, c :: cs =>
    match takeGithubPair ci (c :: cs) with
    | some p => some p
    | Option.none => githubPairScanAux ci fuel cs

/-- `re.search(r"github\.com/([\w.-]+)/([\w.-]+)", s[, re.IGNORECASE])`. -/
def search_github_pair (ci : Bool) (s : String) : Option (String × String) :=
  githubPairScanAux ci s.toList.length s.toList

/-- Does `$` match here (end of input, or just before a final newline)? -/
def endDollar : List Char → Bool
  | [] => true
  | ['\n'] => true
  | _ => false

/-- Does `(?:,|$)` match at this position? -/
def commaOrEnd : List Char → Bool
  | ',' :: _ => true
  | r => endDollar r

/-- Lazy capture `(.+?)` followed by `(?:,|$)`: the shortest non-empty run of
non-newline characters after which a comma or the end of line follows. -/
def lazyCapAux (acc : List Char) : List Char → Option (List Char)
  | [] => Option.none
  | c :: rest =>
    if c == '\n' then Option.none
    else if commaOrEnd rest then some (acc ++ [c])
    else lazyCapAux (acc ++ [c]) rest

/-- Greedy capture `(.+)` followed by `$`: the maximal non-empty run of
non-newline characters, provided `$` matches right after it. -/
def greedyCap (cs : List Char) : Option (List Char) :=
  let run := cs.takeWhile (fun c => c != '\n')
  if run.isEmpty then Option.none
  else if endDollar (cs.drop run.length) then some run else Option.none

/-- Backtracking over the second `\s*`: try consuming `n` whitespace
characters first (the greedy attempt), then fewer, before the capture. -/
def wsBacktrack (cap : List Char → Option (List Char)) (cs : List Char) :
    Nat → Option (List Char)
  | 0 => cap cs
  | n + 1 =>
    match cap (cs.drop (n + 1)) with
    | some r => some r
    | Option.none => wsBacktrack cap cs n

/-- Match the label (case-insensitive) followed by `\s*[-:]`; the first `\s*`
is deterministic because no whitespace character can match `[-:]`. -/
def afterLabel (label : List Char) (cs : List Char) : Option (List Char) :=
  match stripLitCI label cs with
  | Option.none => Option.none
  | some r1 =>
    match r1.dropWhile isPySpace with
    | d :: r2 => if d == '-' || d == ':' then some r2 else Option.none
    | [] => Option.none

/-- Leftmost `re.search` of `label\s*[-:]\s*` followed by the capture `cap`. -/
def searchCap (label : List Char) (cap : List Char → Option (List Char)) :
    List Char → Option (List Char)
  | [] => Option.none
  | c :: cs =>
    match (afterLabel label (c :: cs)).bind
        (fun r => wsBacktrack cap r ((r.takeWhile isPySpace).length)) with
    | some g => some g
    | Option.none => searchCap label cap cs

/-- Is there a word/non-word boundary just after `k` characters of `cs`,
given that the `k`-th character (when `k > 0`) is a word character? -/
def boundaryAfterRun (cs : List Char) (k : Nat) : Bool :=
  match cs.drop k with
  | [] => true
  | c :: _ => !(isWordChar c)

/-- Greedy `{7,40}` with a trailing `\b`: try the longest length first. -/
def shaTryLen (cs : List Char) (runLen : Nat) : Nat → Option Nat
  | 0 => Option.none
  | k + 1 =>
    if k + 1 < 7 then Option.none
    else if k + 1 ≤ runLen && boundaryAfterRun cs (k + 1) then some (k + 1)
    else shaTryLen cs runLen k

/-- Try to match `[0-9a-f]{7,40}\b` starting exactly here. -/
def shaAt (cs : List Char) : Option String :=
  match shaTryLen cs ((cs.takeWhile isHexLower).length) 40 with
  | some k => some (String.mk (cs.take k))
  | Option.none => Option.none

/-- Scanner for `re.search(r"\b[0-9a-f]{7,40}\b", text)`; the Boolean records
whether the previous character was a word character (initially false). -/
def shaScanAux : Bool → List Char → Option String
  | _, [] => Option.none
  | prevWord, c :: cs =>
    match (if !prevWord && isHexLower c then shaAt (c :: cs) else Option.none) with
    | some s => some s
    | Option.none => shaScanAux (isWordChar c) cs

/-- Leftmost hex token of 7 to 40 characters delimited by word boundaries. -/
def sha_search (s : String) : Option String := shaScanAux false s.toList

/-- The configuration fields of `config.settings` read by the orchestrator. -/
structure Settings where
  GITHUB_DEFAULT_REPOS : String
  GITHUB_REPO_URL : String
  JIRA_URL : String
  JIRA_DEFAULT_PROJECT_KEY : String
deriving Repr

/-- The provider-to-tools map built by `ToolRegistry.list_tools` (its keys
are always exactly `jira` and `github`). -/
structure Catalog where
  jira : List PyDict
  github : List PyDict
deriving Repr

/-- One planned tool call, as built by `_plan`: the dict
`(provider, tool, meta, args)`. -/
structure Task where
  provider : String
  tool : String
  meta : Option PyDict
  args : PyDict
deriving Repr

/-- The exception classes the orchestrator's handlers dispatch on. -/
inductive PyExcClass where
  | typeError
  | valueError
  | attributeError
  | runtimeError
  | osError
  | otherExc
deriving Repr, DecidableEq

/-- A raised Python exception: its class and its `str()` rendering. -/
structure PyExc where
  cls : PyExcClass
  msg : String
deriving Repr, DecidableEq

/-- The stopword set of `_extract_keywords`. -/
def keyword_stop : List String :=
  ["the", "a", "an", "and", "or", "to", "on", "in", "for", "of", "with",
   "about", "all", "give", "show", "list", "get", "me", "my", "please",
   "could", "would", "find", "fetch", "retrieve", "past", "history", "issue",
   "issues", "pr", "pull", "request", "requests", "related", "know", "want"]

/-- The keyword-collecting loop of `_extract_keywords` (limit 5, with the
`break` checked after each word). -/
def extract_keywords_loop : List String → List String → List String
  | [], acc => acc
  | w :: ws, acc =>
    let acc2 :=
      if w ∉ keyword_stop ∧ w.length > 2 ∧ w ∉ acc then acc ++ [w] else acc
    if 5 ≤ acc2.length then acc2 else extract_keywords_loop ws acc2

/-- `_extract_keywords`: tokens of the lower-cased message, filtered by the
stopword set and a minimum length, deduplicated, capped at five, with a
default keyword when nothing survives. -/
def extract_keywords (msg : String) : List String :=
  let ks := extract_keywords_loop (findAllRuns isKwChar (pyLower msg)) []
  if ks.isEmpty then ["permission"] else ks

/-- Case-insensitive deduplication preserving order (`seen` holds the
lower-casings already emitted). -/
def dedupLowerAux (seen : List String) : List String → List String
  | [] => []
  | r :: rs =>
    if pyLower r ∈ seen then dedupLowerAux seen rs
    else r :: dedupLowerAux (pyLower r :: seen) rs

/-- Python `r.split("/", 1)` unpacked into two pieces; `Option.none` models the
`ValueError` raised by unpacking when there is no slash. -/
def splitOwnerRepo (r : String) : Option (String × String) :=
  let cs := r.toList
  if cs.contains '/' then
    some (String.mk (cs.takeWhile (fun c => c != '/')),
          String.mk ((cs.dropWhile (fun c => c != '/')).drop 1))
  else Option.none

/-- The configured default repositories plus the pair parsed from the single
repository URL, as assembled by `_parse_repo_filters`. -/
def default_repo_filters (cfg : Settings) : List String :=
  let ds := ((cfg.GITHUB_DEFAULT_REPOS.splitOn ",").map pyStrip).filter
    (fun r => r ≠ "")
  ds ++
    (if cfg.GITHUB_REPO_URL ≠ "" then
      match search_github_pair true cfg.GITHUB_REPO_URL with
      | some (o, r) => [o ++ "/" ++ r]
      | Option.none => []
    else [])

/-- `_parse_repo_filters`: matched `repo:owner/name` tokens first, then the
configured defaults, deduplicated case-insensitively preserving order. -/
def parse_repo_filters (cfg : Settings) (msg : String) : List String :=
  dedupLowerAux [] (find_repo_tokens msg ++ default_repo_filters cfg)

/-- The trigger vocabulary of `_needs_tools`, exactly as in the source (the
adjacent literals `"wants" "commit"` concatenate to one entry). -/
def needs_tools_triggers : List String :=
  ["jira", "github", "issue", "issues", "task", "tasks", "ticket",
   "pull request", "pr", "permission", "history", "story", "stories", "epic",
   "epics", "feature", "features", "bug", "bugs", "problem", "problems",
   "error", "errors", "help", "need", "needs", "want", "wantscommit",
   "commits", "repository", "repositories", "repo", "repos", "list repos",
   "list commits", "list commit", "list commit history", "commit history",
   "commit history"]

/-- `_needs_tools`: substring test of the trigger vocabulary against the
lower-cased message. -/
def needs_tools (msg : String) : Bool :=
  needs_tools_triggers.any (fun t => strIn t (pyLower msg))

/-- The phrase list of `_wants_direct_create`. -/
def direct_create_patterns : List String :=
  ["create a bug", "create bug", "create jira bug", "create jira ticket",
   "create ticket in jira", "create a ticket", "create ticket", "open a bug",
   "open bug in jira", "open a ticket", "file a bug", "report a bug",
   "create issue", "create an issue", "raise a bug"]

/-- `_wants_direct_create`: phrase membership in the lower-cased message. -/
def wants_direct_create (msg : String) : Bool :=
  direct_create_patterns.any (fun p => strIn p (pyLower msg))

/-- `_parse_title_description`: the `title\s*[-:]\s*(.+?)(?:,|$)` and
`description\s*[-:]\s*(.+)$` searches, each capture stripped. -/
def parse_title_description (msg : String) : Option String × Option String :=
  let cs := msg.toList
  ((searchCap ("title".toList) (lazyCapAux []) cs).map
     (fun g => pyStrip (String.mk g)),
   (searchCap ("description".toList) greedyCap cs).map
     (fun g => pyStrip (String.mk g)))

/-- `str(t.get("name", ""))` for a tool dict. -/
def tool_name_str (t : PyDict) : String := pyStrOf (dgetD t "name" (.str ""))

/-- First tool (in catalog order) whose name and description together contain
every required token, as in step 2 of `_resolve_tool_name`. -/
def tool_blob_matches (req : List String) (t : PyDict) : Bool :=
  let blob :=
    pyLower (tool_name_str t ++ " " ++ pyStrOf (dgetD t "description" (.str "")))
  req.all (fun tok => strIn tok blob)

/-- `_resolve_tool_name`: exact preferred-name match (case-insensitive, last
non-empty name wins as in the dict comprehension), then the name+description
token heuristic, then the name-only token fallback. -/
def resolve_tool_name (tools : List PyDict) (preferred : List String)
    (req : List String) : Option String :=
  let names := tools.map tool_name_str
  let lowerGet : String → Option String := fun key =>
    (names.filter (fun n => n ≠ "")).reverse.find? (fun n => pyLower n = key)
  let nameOnly : Option String :=
    if req.isEmpty then Option.none
    else
      (tools.find? (fun t =>
        req.all (fun tok => strIn tok (pyLower (tool_name_str t))))).map
        (fun t => pyStrOf (dgetN t "name"))
  match preferred.findSome? (fun p => lowerGet (pyLower p)) with
  | some n => some n
  | Option.none =>
    if req.isEmpty then Option.none
    else
      match tools.find? (tool_blob_matches req) with
      | some t =>
        let best := tool_name_str t
        if best ≠ "" then some best else nameOnly
      | Option.none => nameOnly

/-- `_find_tool_by_name`: first tool whose name matches case-insensitively;
a falsy (`None` or empty) name gives no result. -/
def find_tool_by_name (tools : List PyDict) (name : Option String) :
    Option PyDict :=
  match name with
  | Option.none => Option.none
  | some n =>
    if n = "" then Option.none
    else tools.find? (fun t => pyLower (tool_name_str t) = pyLower n)

/-- `_extract_schema_keys`: property names of the declared input schema; a
falsy descriptor or an unrecognized shape gives the empty list. -/
def extract_schema_keys (meta : Option PyDict) : List String :=
  match meta with
  | Option.none => []
  | some m =>
    if m.isEmpty then []
    else
      match pyOr (dgetN m "input_schema")
          (pyOr (dgetN m "inputSchema") (pyOr (dgetN m "schema") (.dict []))) with
      | .dict sd =>
        match dget sd "properties" with
        | some (.dict props) => props.map (fun p => p.1)
        | _ => []
      | _ => []

/-- The `keys_lower` index of `_adapt_arguments`: lookup by lower-cased name,
with the last schema key winning as in the dict comprehension. -/
def keysLowerGet (sk : List String) (c : String) : Option String :=
  sk.reverse.find? (fun k => pyLower k = pyLower c)

/-- The `choose_key` helper of `_adapt_arguments`: first candidate with a
truthy schema-indexed name, else the fixed default. -/
def chooseKey (sk : List String) (cands : List String) (dflt : String) : String :=
  match cands.findSome? (fun c =>
    match keysLowerGet sk c with
    | some k => if k ≠ "" then some k else Option.none
    | Option.none => Option.none) with
  | some k => k
  | Option.none => dflt

/-- The pass-through candidate key for a remaining Jira argument, including
the `snake_case`/`camelCase` remapping for the common fields. -/
def jiraPassCandidate (sk : List String) (k : String) : String :=
  let c0 :=
    match keysLowerGet sk k with
    | some k2 => if k2 ≠ "" then k2 else k
    | Option.none => k
  if c0 = k ∧ ¬ sk.isEmpty then
    if k = "project_key" ∧ "projectKey" ∈ sk then "projectKey"
    else if k = "projectKey" ∧ "project_key" ∈ sk then "project_key"
    else if k = "issue_type" ∧ "issueType" ∈ sk then "issueType"
    else if k = "issueType" ∧ "issue_type" ∈ sk then "issue_type"
    else c0
  else c0

/-- Copy one intended argument (if present) to a chosen destination key. -/
def setArg (intended : PyDict) (d : PyDict) (dstKey srcKey : String) : PyDict :=
  match dget intended srcKey with
  | some v => dset d dstKey v
  | Option.none => d

/-- The Jira branch after the `jql` translation (`args` with `jql` set). -/
def adapt_jira_a1 (sk : List String) (intended : PyDict) : PyDict :=
  setArg intended [] (chooseKey sk ["jql", "query", "jqlQuery"] "jql") "jql"

/-- The Jira branch after the `maxResults` translation. -/
def adapt_jira_a2 (sk : List String) (intended : PyDict) : PyDict :=
  setArg intended (adapt_jira_a1 sk intended)
    (chooseKey sk ["maxResults", "max_results", "limit"] "maxResults")
    "maxResults"

/-- The Jira branch after the `limit` fallback into the `maxResults` slot. -/
def adapt_jira_a3 (sk : List String) (intended : PyDict) : PyDict :=
  match dget intended "limit" with
  | some v =>
    if !(hasKey (adapt_jira_a2 sk intended)
          (chooseKey sk ["maxResults", "max_results", "limit"] "maxResults"))
    then dset (adapt_jira_a2 sk intended)
      (chooseKey sk ["maxResults", "max_results", "limit"] "maxResults") v
    else adapt_jira_a2 sk intended
  | Option.none => adapt_jira_a2 sk intended

/-- The Jira branch of `_adapt_arguments`, before the final schema filter:
the explicit translations followed by the pass-through of the remaining
intended arguments in insertion order. -/
def adapt_jira (sk : List String) (intended : PyDict) : PyDict :=
  intended.foldl (fun acc kv =>
    if hasKey acc kv.1 then acc
    else dset acc (jiraPassCandidate sk kv.1) kv.2) (adapt_jira_a3 sk intended)

/-- The GitHub branch after the `query` and `perPage` translations. -/
def adapt_github_b2 (sk : List String) (intended : PyDict) : PyDict :=
  setArg intended
    (setArg intended [] (chooseKey sk ["query", "q"] "query") "query")
    (chooseKey sk ["perPage", "per_page", "limit"] "perPage") "perPage"

/-- The GitHub branch after the `limit` fallback into the per-page slot. -/
def adapt_github_b3 (sk : List String) (intended : PyDict) : PyDict :=
  match dget intended "limit" with
  | some v =>
    if !(hasKey (adapt_github_b2 sk intended)
          (chooseKey sk ["perPage", "per_page", "limit"] "perPage"))
    then dset (adapt_github_b2 sk intended)
      (chooseKey sk ["perPage", "per_page", "limit"] "perPage") v
    else adapt_github_b2 sk intended
  | Option.none => adapt_github_b2 sk intended

/-- The per-key translation of the GitHub branch of `_adapt_arguments`,
before the enforced-repository scoping. -/
def adapt_github_base (sk : List String) (intended : PyDict) : PyDict :=
  setArg intended
    (setArg intended
      (setArg intended
        (setArg intended
          (setArg intended
            (setArg intended
              (setArg intended
                (setArg intended (adapt_github_b3 sk intended)
                  (chooseKey sk ["owner", "user", "org"] "owner") "owner")
                (chooseKey sk ["repo", "repository"] "repo") "repo")
              (chooseKey sk ["sha", "start_sha"] "sha") "sha")
            (chooseKey sk ["ref", "sha", "commit"] "ref") "ref")
          (chooseKey sk ["path", "filePath"] "path") "path")
        (chooseKey sk ["order", "direction"] "order") "order")
      (chooseKey sk ["sort"] "sort") "sort")
    (chooseKey sk ["page"] "page") "page"

/-- The enforced-repository scoping applied after the GitHub translation:
prefix the free-text query with the `repo:owner/name` token when missing and
force-overwrite the owner and repo arguments. -/
def enforce_repo_scope (sk : List String) (eo er : String) (args : PyDict) :
    PyDict :=
  let queryKey := chooseKey sk ["query", "q"] "query"
  let ownerKey := chooseKey sk ["owner", "user", "org"] "owner"
  let repoKey := chooseKey sk ["repo", "repository"] "repo"
  let tok := "repo:" ++ eo ++ "/" ++ er
  let c1 :=
    match dget args queryKey with
    | some (.str q) =>
      if strIn tok q then args
      else dset args queryKey (.str (pyStrip (tok ++ " " ++ q)))
    | _ => args
  dset (dset c1 ownerKey (.str eo)) repoKey (.str er)

/-- The GitHub branch of `_adapt_arguments`, before the final schema filter:
the per-key translation followed by the enforced-repository scoping. -/
def adapt_github (cfg : Settings) (sk : List String) (intended : PyDict) :
    PyDict :=
  let b11 := adapt_github_base sk intended
  let enforced := pyStrip cfg.GITHUB_REPO_URL
  if enforced ≠ "" then
    match search_github_pair false enforced with
    | some (eo, er) => enforce_repo_scope sk eo er b11
    | Option.none => b11
  else b11

/-- `_adapt_arguments`: provider-specific key translation followed by the
defensive schema filter when the schema property names are known. -/
def adapt_arguments (cfg : Settings) (provider : String) (meta : Option PyDict)
    (intended : PyDict) : PyDict :=
  let sk := extract_schema_keys meta
  let args :=
    if provider = "jira" then adapt_jira sk intended
    else if provider = "github" then adapt_github cfg sk intended
    else intended
  if sk.isEmpty then args else args.filter (fun kv => kv.1 ∈ sk)

/-- The `_allowed_providers` filter of `_plan`: exclusive phrases are checked
first, then exclusionary phrases; the pair records (jira, github). -/
def provider_filter (text : String) : Bool × Bool :=
  if strIn "only jira" text || strIn "consider only jira" text ||
      strIn "jira only" text then (true, false)
  else if strIn "only github" text || strIn "consider only github" text ||
      strIn "github only" text then (false, true)
  else
    (!(strIn "no jira" text || strIn "without jira" text ||
        strIn "ignore jira" text),
     !(strIn "no github" text || strIn "without github" text ||
        strIn "ignore github" text))

/-- The commit-reference phrases of the specific-commit-intent test. -/
def commit_phrases : List String :=
  ["this commit", "that commit", "the commit", "show commit", "get commit",
   "view commit", "open commit", "commit details", "details for commit",
   "details of commit", "what changed in commit", "changes in commit"]

/-- Specific-commit intent: a hex token of 7 to 40 characters together with
an explicit commit-reference phrase in the lower-cased text. -/
def specific_commit_intent (textLower : String) : Bool :=
  (sha_search textLower).isSome &&
    commit_phrases.any (fun p => strIn p textLower)

/-- The issue/PR intent test guarding the cross-provider search branch. -/
def issue_pr_intent (textLower : String) : Bool :=
  ["issue", "issues", "pr", "pull request", "pull requests"].any
    (fun k => strIn k textLower)

/-- The JQL filter of the planner's issue-search branch: a fixed
type-membership clause for `all tasks` phrasing, else a keyword disjunction
(`None` when there are no keywords). -/
def jql_filter_of (textLower : String) (keywords : List String) :
    Option String :=
  if strIn "all tasks" textLower ||
      (strIn "tasks" textLower && keywords.length ≤ 2) then
    some ("issuetype in (\"Task\",\"Story\",\"Bug\",\"Epic\")")
  else if keywords.isEmpty then Option.none
  else
    some (String.intercalate " OR " (keywords.map (fun kw =>
      "(summary ~ \"" ++ kw ++ "\" OR description ~ \"" ++ kw ++ "\")")))

/-- The direct-create task of `_plan`: create-issue tool (with the
conventional fallback name), parsed title/description, fixed type `Bug`. -/
def plan_direct_create (cfg : Settings) (cat : Catalog) (msg : String) : Task :=
  let jtool :=
    resolve_tool_name cat.jira ["jira_create_issue", "create_issue", "createIssue"]
      ["create", "issue"]
  let chosen :=
    match jtool with
    | some n => if n ≠ "" then n else "jira_create_issue"
    | Option.none => "jira_create_issue"
  let meta := find_tool_by_name cat.jira (some chosen)
  let td := parse_title_description msg
  let summary :=
    match td.1 with
    | some t => if t ≠ "" then t else pyTake msg 100
    | Option.none => pyTake msg 100
  let description :=
    match td.2 with
    | some d => if d ≠ "" then d else msg
    | Option.none => msg
  let pk :=
    if cfg.JIRA_DEFAULT_PROJECT_KEY ≠ "" then cfg.JIRA_DEFAULT_PROJECT_KEY
    else ""
  { provider := "jira", tool := chosen, meta := meta,
    args := [("project_key", .str pk), ("summary", .str summary),
             ("description", .str description), ("issue_type", .str "Bug")] }

/-- The Jira issue-search branch of `_plan`. -/
def plan_jira_search (cat : Catalog) (msg : String) : Option Task :=
  let textLower := pyLower msg
  let keywords := extract_keywords msg
  let jtool :=
    resolve_tool_name cat.jira
      ["search_issues", "searchIssues", "issues_search", "jira_search_issues"]
      ["search", "issue"]
  let meta := find_tool_by_name cat.jira jtool
  match jql_filter_of textLower keywords, jtool with
  | some f, some tn =>
    if (provider_filter textLower).1 && f ≠ "" && tn ≠ "" then
      some { provider := "jira", tool := tn, meta := meta,
             args := [("jql", .str ("(" ++ f ++ ") ORDER BY updated DESC")),
                      ("maxResults", .int 30)] }
    else Option.none
  | _, _ => Option.none

/-- Resolution of the cross-provider search tool, with the pull-request
variant retried when the first resolution is falsy. -/
def gh_search_tool_of (cat : Catalog) : Option String :=
  let t1 := resolve_tool_name cat.github ["search_issues", "searchIssues"]
    ["search", "issue"]
  match t1 with
  | some n =>
    if n ≠ "" then t1
    else resolve_tool_name cat.github
      ["search_pull_requests", "searchPullRequests"] ["search", "pull"]
  | Option.none =>
    resolve_tool_name cat.github
      ["search_pull_requests", "searchPullRequests"] ["search", "pull"]

/-- The GitHub issue/PR search branch of `_plan`. -/
def plan_gh_search (cfg : Settings) (cat : Catalog) (msg : String) :
    Option Task :=
  let textLower := pyLower msg
  let keywords := extract_keywords msg
  let gtool := gh_search_tool_of cat
  let meta := find_tool_by_name cat.github gtool
  match gtool with
  | some tn =>
    if (provider_filter textLower).2 && tn ≠ "" && issue_pr_intent textLower then
      let rf := parse_repo_filters cfg msg
      let repoPart :=
        String.intercalate " " (rf.map (fun r => "repo:" ++ r)) ++
          (if rf.isEmpty then "" else " ")
      some { provider := "github", tool := tn, meta := meta,
             args := [("query", .str (repoPart ++
                       "is:pr is:merged sort:updated-desc " ++
                       String.intercalate " " keywords)),
                      ("perPage", .int 30)] }
    else Option.none
  | Option.none => Option.none

/-- The GitHub repository-search branch of `_plan`. -/
def plan_gh_repo_search (cat : Catalog) (msg : String) : Option Task :=
  let textLower := pyLower msg
  let keywords := extract_keywords msg
  let rtool := resolve_tool_name cat.github
    ["search_repositories", "searchRepositories"] ["search", "repo"]
  let meta := find_tool_by_name cat.github rtool
  match rtool with
  | some tn =>
    if (provider_filter textLower).2 && tn ≠ "" &&
        (strIn "repositories" textLower || strIn "repos" textLower ||
          strIn "list repos" textLower) then
      let q0 := String.intercalate " " keywords
      some { provider := "github", tool := tn, meta := meta,
             args := [("query", .str (if q0 ≠ "" then q0 else "stars:>1")),
                      ("perPage", .int 30)] }
    else Option.none
  | Option.none => Option.none

/-- The commit-history branch of `_plan`: gated on history/commit phrasing,
the absence of specific-commit intent, and a parseable first repo filter. -/
def plan_gh_list_commits (cfg : Settings) (cat : Catalog) (msg : String) :
    Option Task :=
  let textLower := pyLower msg
  let ltool := resolve_tool_name cat.github ["list_commits", "listCommits"]
    ["commit"]
  let meta := find_tool_by_name cat.github ltool
  match ltool with
  | some tn =>
    if (provider_filter textLower).2 && tn ≠ "" &&
        (strIn "commits" textLower || strIn "commit history" textLower ||
          strIn "history" textLower) &&
        !(specific_commit_intent textLower) then
      match parse_repo_filters cfg msg with
      | [] => Option.none
      | r :: _ =>
        match splitOwnerRepo r with
        | some (o, rn) =>
          some { provider := "github", tool := tn, meta := meta,
                 args := [("owner", .str o), ("repo", .str rn),
                          ("perPage", .int 30)] }
        | Option.none => Option.none
    else Option.none
  | Option.none => Option.none

/-- The single-commit-lookup branch of `_plan`: gated on specific-commit
intent, with the matched hex token as the commit reference. -/
def plan_gh_get_commit (cfg : Settings) (cat : Catalog) (msg : String) :
    Option Task :=
  let textLower := pyLower msg
  let gtool := resolve_tool_name cat.github ["get_commit", "getCommit"]
    ["commit"]
  let meta := find_tool_by_name cat.github gtool
  match gtool with
  | some tn =>
    if (provider_filter textLower).2 && tn ≠ "" &&
        specific_commit_intent textLower then
      match sha_search textLower, parse_repo_filters cfg msg with
      | some ref, r :: _ =>
        match splitOwnerRepo r with
        | some (o, rn) =>
          some { provider := "github", tool := tn, meta := meta,
                 args := [("owner", .str o), ("repo", .str rn),
                          ("ref", .str ref)] }
        | Option.none => Option.none
      | _, _ => Option.none
    else Option.none
  | Option.none => Option.none

/-- `_plan`: the direct-create fast path returns a single task immediately;
otherwise each branch contributes at most one task, in source order. -/
def plan (cfg : Settings) (cat : Catalog) (msg : String) : List Task :=
  let textLower := pyLower msg
  if (provider_filter textLower).1 && wants_direct_create msg then
    [plan_direct_create cfg cat msg]
  else
    (plan_jira_search cat msg).toList ++
    (plan_gh_search cfg cat msg).toList ++
    (plan_gh_repo_search cat msg).toList ++
    (plan_gh_list_commits cfg cat msg).toList ++
    (plan_gh_get_commit cfg cat msg).toList

/-- The exception classes caught by `ToolRegistry.list_tools` around each
provider's fetch. -/
def registry_caught (c : PyExcClass) : Bool :=
  match c with
  | .typeError => true
  | .valueError => true
  | .attributeError => true
  | _ => false

/-- `_normalize_tool_item` on JSON-like values: dicts pass through; any
other value falls to the `(name, str(tool))` fallback. -/
def normalize_tool_item (t : PyVal) : PyDict :=
  match t with
  | .dict d => d
  | v => [("name", .str (pyStrOf v))]

/-- `_normalize_tools_list`: non-lists normalize to the empty catalog. -/
def normalize_tools_list (v : PyVal) : List PyDict :=
  match v with
  | .list xs => xs.map normalize_tool_item
  | _ => []

/-- The uncached body of `ToolRegistry.list_tools`: each provider fetch is
guarded by `except (TypeError, ValueError, AttributeError)`; exceptions of
any other class propagate. -/
def list_tools_once (jiraFetch ghFetch : Except PyExc PyVal) :
    Except PyExc Catalog :=
  match jiraFetch with
  | .ok raw =>
    (match ghFetch with
     | .ok graw => .ok ⟨normalize_tools_list raw, normalize_tools_list graw⟩
     | .error e =>
       if registry_caught e.cls then .ok ⟨normalize_tools_list raw, []⟩
       else .error e)
  | .error e =>
    if registry_caught e.cls then
      (match ghFetch with
       | .ok graw => .ok ⟨[], normalize_tools_list graw⟩
       | .error e2 =>
         if registry_caught e2.cls then .ok ⟨[], []⟩ else .error e2)
    else .error e

/-- `ToolRegistry.list_tools` with its memoization state: a cached map is
returned unchanged without refetching; otherwise the body runs and the
result (when no exception escapes) becomes the new cache. -/
def registry_list_tools (cached : Option Catalog)
    (jiraFetch ghFetch : Except PyExc PyVal) :
    Except PyExc (Catalog × Option Catalog) :=
  match cached with
  | some m => .ok (m, some m)
  | Option.none =>
    match list_tools_once jiraFetch ghFetch with
    | .ok c => .ok (c, some c)
    | .error e => .error e

/-- The `RuntimeError` raised by `JiraMCPClient._ensure_client` when
`JIRA_URL` is unset, reaching `list_tools` through the Jira fetch. -/
def jira_missing_url_error : PyExc := ⟨.runtimeError, "JIRA_URL is not set"⟩

/-- `_unwrap_mcp_result` restricted to JSON-like values: lists and dicts
pass through, and the remaining values carry no content envelope. -/
def unwrap_mcp_result (v : PyVal) : PyVal :=
  match v with
  | .list xs => .list xs
  | .dict d => .dict d
  | w => w

/-- `_execute`: tasks with an unknown provider contribute no call; each call
adapts the task's arguments at call time and is dispatched through the
remote-call oracle, with exceptions captured per call
(`asyncio.gather(..., return_exceptions=True)`). -/
def execute (cfg : Settings)
    (call : String → String → PyDict → Except PyExc PyVal)
    (tasks : List Task) : List (Except PyExc PyVal) :=
  (tasks.filter (fun t => t.provider = "jira" || t.provider = "github")).map
    (fun t =>
      let r := call t.provider t.tool (adapt_arguments cfg t.provider t.meta t.args)
      if t.provider = "github" then r.map unwrap_mcp_result else r)

/-- One citation entry, as mapped to `ChatResponse.SourceInfo`. -/
structure SourceInfo where
  chunk_id : Nat
  source : String
  content_preview : String
deriving Repr, DecidableEq

/-- The accumulating state of `_aggregate`: the textual lines, the citation
list and the structured bucket map. -/
structure AggState where
  lines : List String
  sources : List SourceInfo
  structured : List (String × List PyVal)
deriving Repr

/-- `structured.setdefault(key, []).extend(vs)`. -/
def buckets_extend (st : List (String × List PyVal)) (k : String)
    (vs : List PyVal) : List (String × List PyVal) :=
  if st.any (fun p => p.1 = k) then
    st.map (fun p => if p.1 = k then (k, p.2 ++ vs) else p)
  else st ++ [(k, vs)]

/-- `structured.get(key, [])`. -/
def bucket_get (st : List (String × List PyVal)) (k : String) : List PyVal :=
  ((st.find? (fun p => p.1 = k)).map (fun p => p.2)).getD []

/-- The `normalize_issue` helper of `_jira_issues_from_payload`. -/
def normalize_issue (cfg : Settings) (raw0 : PyDict) : PyVal :=
  let raw :=
    match dget raw0 "issue" with
    | some (.dict d) => d
    | _ => raw0
  let issueKey := dgetN raw "key"
  let fields :=
    match dget raw "fields" with
    | some (.dict f) => f
    | _ => ([] : PyDict)
  let browse :=
    if cfg.JIRA_URL ≠ "" ∧ pyTruthy issueKey then
      PyVal.str (pyRstripSlash cfg.JIRA_URL ++ "/browse/" ++ pyStrOf issueKey)
    else PyVal.str ""
  .dict [("id", pyOr (dgetN raw "id") (dgetN raw "issue_id")),
         ("key", issueKey),
         ("summary", pyOr (dgetN raw "summary")
            (pyOr (dgetN fields "summary") (.str ""))),
         ("description", pyOr (dgetN raw "description")
            (pyOr (dgetN fields "description") (.str ""))),
         ("url", pyOr browse
            (pyOr (dgetN raw "self") (pyOr (dgetN raw "url") (.str ""))))]

/-- Normalize the dict entries of a raw issues array, skipping non-dicts. -/
def normalize_issue_list (cfg : Settings) (its : List PyVal) : List PyVal :=
  its.filterMap (fun it =>
    match it with
    | .dict d => some (normalize_issue cfg d)
    | _ => Option.none)

/-- The normalized issues contributed by one entry of a wrapping list: its
`issues` array when it is a dict holding one. -/
def entry_issues (cfg : Settings) (e : PyVal) : List PyVal :=
  match e with
  | .dict ed =>
    (match dget ed "issues" with
     | some (.list its) => normalize_issue_list cfg its
     | _ => [])
  | _ => []

/-- Collect normalized issues from the `issues` arrays of a list of entry
dicts (the `[ { total, issues: [...] } ]` pattern), in loop order. -/
def issues_of_entries (cfg : Settings) : List PyVal → List PyVal
  | [] => []
  | e :: es => entry_issues cfg e ++ issues_of_entries cfg es

/-- The `items` wrapping accepted for a dict payload. -/
def jira_items_part (cfg : Settings) (d : PyDict) : List PyVal :=
  match dget d "items" with
  | some (.list entries) => issues_of_entries cfg entries
  | _ => []

/-- The `issues` array, `issue` wrapper or bare-issue fallback of a dict
payload, in source order. -/
def jira_dict_rest (cfg : Settings) (d : PyDict) : List PyVal :=
  match dget d "issues" with
  | some (.list its) => normalize_issue_list cfg its
  | _ =>
    match dget d "issue" with
    | some (.dict inner) => [normalize_issue cfg inner]
    | _ => [normalize_issue cfg d]

/-- `_jira_issues_from_payload`: the accepted payload shapes, in source
order (`items` wrapping, `issues` array, `issue` wrapper, bare issue). -/
def jira_issues_from_payload (cfg : Settings) (payload : PyVal) : List PyVal :=
  match payload with
  | .list entries => issues_of_entries cfg entries
  | .dict d => jira_items_part cfg d ++ jira_dict_rest cfg d
  | _ => []

/-- Is this value a dict? -/
def isDictB : PyVal → Bool
  | .dict _ => true
  | _ => false

/-- `_github_search_items`: the dict entries of `payload.items` or of a bare
list payload. -/
def github_search_items (payload : PyVal) : List PyVal :=
  match payload with
  | .dict d =>
    (match dget d "items" with
     | some (.list its) => its.filter isDictB
     | _ => [])
  | .list its => its.filter isDictB
  | _ => []

/-- One normalized GitHub issue/PR record. -/
def github_issue_record (d : PyDict) : PyVal :=
  .dict [("id", dgetN d "id"), ("number", dgetN d "number"),
         ("title", dgetN d "title"), ("state", dgetN d "state"),
         ("url", pyOr (dgetN d "html_url") (pyOr (dgetN d "url") (.str "")))]

/-- `_github_issues_from_payload`. -/
def github_issues_from_payload (payload : PyVal) : List PyVal :=
  (github_search_items payload).map (fun it =>
    match it with
    | .dict d => github_issue_record d
    | v => v)

/-- One normalized GitHub repository record. -/
def github_repo_record (d : PyDict) : PyVal :=
  .dict [("id", dgetN d "id"), ("name", dgetN d "name"),
         ("full_name", dgetN d "full_name"),
         ("description", dgetN d "description"),
         ("url", pyOr (dgetN d "html_url") (pyOr (dgetN d "url") (.str ""))),
         ("stargazers_count", dgetN d "stargazers_count")]

/-- `_github_repos_from_payload`. -/
def github_repos_from_payload (payload : PyVal) : List PyVal :=
  (github_search_items payload).map (fun it =>
    match it with
    | .dict d => github_repo_record d
    | v => v)

/-- The `isinstance(x, list)` guard on an optional dict entry. -/
def as_list_opt : Option PyVal → Option (List PyVal)
  | some (.list xs) => some xs
  | _ => Option.none

/-- The item extraction of `_github_commits_from_payload`: a bare list, or
the first of `commits`/`items`/`results` that is a list. -/
def github_commits_items (payload : PyVal) : List PyVal :=
  match payload with
  | .list xs => xs.filter isDictB
  | .dict d =>
    (match as_list_opt (dget d "commits") with
     | some xs => xs.filter isDictB
     | Option.none =>
       match as_list_opt (dget d "items") with
       | some xs => xs.filter isDictB
       | Option.none =>
         match as_list_opt (dget d "results") with
         | some xs => xs.filter isDictB
         | Option.none => [])
  | _ => []

/-- One normalized GitHub commit record, unwrapping `commit.author`. -/
def github_commit_record (d : PyDict) : PyVal :=
  let commit :=
    match dget d "commit" with
    | some (.dict c) => c
    | _ => ([] : PyDict)
  let author :=
    match dget commit "author" with
    | some (.dict a) => a
    | _ => ([] : PyDict)
  .dict [("sha", dgetN d "sha"), ("message", dgetN commit "message"),
         ("author", dgetN author "name"), ("date", dgetN author "date"),
         ("url", pyOr (dgetN d "html_url") (pyOr (dgetN d "url") (.str "")))]

/-- `_github_commits_from_payload`. -/
def github_commits_from_payload (payload : PyVal) : List PyVal :=
  (github_commits_items payload).map (fun it =>
    match it with
    | .dict d => github_commit_record d
    | v => v)

/-- The label `provider.tool` of a task. -/
def task_label (t : Task) : String := t.provider ++ "." ++ t.tool

/-- The item count reported for a successful payload. -/
def count_of (r : PyVal) : Nat :=
  match r with
  | .list xs => xs.length
  | .dict _ => 1
  | _ => 0

/-- The provider-specific structured-bucket update for one successful task
(buckets are only touched when the normalizer produced records). -/
def structured_update (cfg : Settings) (t : Task) (r : PyVal)
    (st : List (String × List PyVal)) : List (String × List PyVal) :=
  if t.provider = "jira" then
    let js := jira_issues_from_payload cfg r
    if js.isEmpty then st else buckets_extend st "jira_issues" js
  else if t.provider = "github" then
    let tool := pyLower (if t.tool ≠ "" then t.tool else "")
    if strIn "search_issues" tool then
      let g := github_issues_from_payload r
      if g.isEmpty then st else buckets_extend st "github_issues" g
    else if strIn "search_repositories" tool || strIn "searchrepositories" tool then
      let g := github_repos_from_payload r
      if g.isEmpty then st else buckets_extend st "github_repositories" g
    else if strIn "list_commits" tool || strIn "listcommits" tool then
      let g := github_commits_from_payload r
      if g.isEmpty then st else buckets_extend st "github_commits" g
    else if strIn "get_commit" tool || strIn "getcommit" tool then
      let g := github_commits_from_payload
        (match r with
         | .dict d => .list [.dict d]
         | _ => .list [])
      if g.isEmpty then st else buckets_extend st "github_commits" g
    else st
  else st

/-- The raw payload shapes that clearly contain issues, preferred as the
citation source (`r[0]["issues"]` or `r["issues"]`). -/
def raw_issue_items (r : PyVal) : Option (List PyVal) :=
  match r with
  | .list (first :: _) =>
    (match first with
     | .dict d =>
       (match dget d "issues" with
        | some (.list its) => some its
        | _ => Option.none)
     | _ => Option.none)
  | .dict d =>
    (match dget d "issues" with
     | some (.list its) => some its
     | _ => Option.none)
  | _ => Option.none

/-- The citation items for one task: the raw issue arrays when present,
else the provider's structured buckets accumulated so far. -/
def items_for_sources (t : Task) (r : PyVal)
    (st : List (String × List PyVal)) : List PyVal :=
  match raw_issue_items r with
  | some its => its
  | Option.none =>
    if t.provider = "jira" then bucket_get st "jira_issues"
    else if t.provider = "github" then
      if !(bucket_get st "github_issues").isEmpty then
        bucket_get st "github_issues"
      else if !(bucket_get st "github_repositories").isEmpty then
        bucket_get st "github_repositories"
      else bucket_get st "github_commits"
    else []

/-- One citation entry built from an item; a non-dict item raises
`AttributeError` (`item.get` on a value without `get`), as in the source. -/
def source_of_item (idx : Nat) (item : PyVal) : Except PyExc SourceInfo :=
  match item with
  | .dict d =>
    let title := pyOr (dgetN d "title") (pyOr (dgetN d "key")
      (pyOr (dgetN d "name") (pyOr (dgetN d "message") (.str "item"))))
    let url := pyOr (dgetN d "html_url") (pyOr (dgetN d "url")
      (pyOr (dgetN d "self") (.str "")))
    let preview := pyOr
      (match dgetN d "body" with
       | .str s => .str s
       | _ => .str "")
      (pyOr
        (match dget d "fields" with
         | some (.dict f) => dgetN f "summary"
         | _ => .str "")
        (pyOr
          (match dget d "commit" with
           | some (.dict c) => dgetN c "message"
           | _ => .str "")
          (.str "")))
    .ok { chunk_id := idx, source := pyStrOf (pyOr url title),
          content_preview := pyTake (pyStrOf preview) 200 }
  | _ => .error ⟨.attributeError, "object has no attribute get"⟩

/-- The enumerated citation loop over a task's (already capped) items. -/
def sources_of_items : Nat → List PyVal → Except PyExc (List SourceInfo)
  | _, [] => .ok []
  | idx, it :: its =>
    match source_of_item idx it with
    | .ok s => (sources_of_items (idx + 1) its).map (fun rest => s :: rest)
    | .error e => .error e

/-- One iteration of the aggregation loop over a `(task, outcome)` pair. -/
def agg_step (cfg : Settings) (st : AggState) (t : Task)
    (r : Except PyExc PyVal) : Except PyExc AggState :=
  match r with
  | .error e =>
    .ok { st with lines := st.lines ++ [task_label t ++ ": error " ++ e.msg] }
  | .ok rv =>
    let lines2 :=
      st.lines ++ [task_label t ++ ": " ++ toString (count_of rv) ++ " results"]
    let structured2 := structured_update cfg t rv st.structured
    match sources_of_items 1 ((items_for_sources t rv structured2).take 5) with
    | .ok ss =>
      .ok { lines := lines2, sources := st.sources ++ ss,
            structured := structured2 }
    | .error e => .error e

/-- The aggregation loop over the zipped `(task, outcome)` pairs. -/
def agg_pairs (cfg : Settings) :
    AggState → List (Task × Except PyExc PyVal) → Except PyExc AggState
  | st, [] => .ok st
  | st, (t, r) :: ps =>
    match agg_step cfg st t r with
    | .ok st2 => agg_pairs cfg st2 ps
    | .error e => .error e

/-- `_aggregate` up to its state: lines, citations and structured buckets. -/
def aggregate (cfg : Settings) (tasks : List Task)
    (results : List (Except PyExc PyVal)) : Except PyExc AggState :=
  agg_pairs cfg ⟨[], [], []⟩ (tasks.zip results)

/-- The final result of `_aggregate`: the structured bucket map (serialized
by `json.dumps` in the source, represented here as the JSON value itself)
when any bucket is non-empty, else the joined lines or the fixed fallback
text, paired with the citations. -/
def aggregate_result (cfg : Settings) (tasks : List Task)
    (results : List (Except PyExc PyVal)) :
    Except PyExc (PyVal × List SourceInfo) :=
  (aggregate cfg tasks results).map (fun st =>
    if !st.structured.isEmpty then
      (.dict (st.structured.map (fun p => (p.1, PyVal.list p.2))), st.sources)
    else
      (.str (if st.lines.isEmpty then "No results found."
             else String.intercalate "\n" st.lines), st.sources))

/-- `orchestrate`: the intent gate runs first and returns a null output
without touching the catalog, the planner or the executor; an empty plan
also signals the fallback; otherwise plan, execute and aggregate. -/
def orchestrate (cfg : Settings) (cat : Catalog)
    (call : String → String → PyDict → Except PyExc PyVal) (msg : String) :
    Except PyExc (Option PyVal × List SourceInfo) :=
  if !(needs_tools msg) then .ok (Option.none, [])
  else
    let tasks := plan cfg cat msg
    if tasks.isEmpty then .ok (Option.none, [])
    else
      (aggregate_result cfg tasks (execute cfg call tasks)).map
        (fun p => (some p.1, p.2))

/-! Basic lemmas about the dict operations. -/

theorem dget_nil (k : String) : dget [] k = Option.none := rfl

theorem dget_cons (p : String × PyVal) (ps : PyDict) (k : String) :
    dget (p :: ps) k = if p.1 = k then some p.2 else dget ps k := by
  by_cases h : p.1 = k
  · simp [dget, List.find?_cons_of_pos, h]
  · simp [dget, List.find?_cons_of_neg, h]

theorem dget_dset (d : PyDict) (k : String) (v : PyVal) (k' : String) :
    dget (dset d k v) k' = if k' = k then some v else dget d k' := by
  induction d with
  | nil =>
    simp only [dset, dget_cons, dget_nil]
    by_cases h : k' = k
    · simp [h]
    · rw [if_neg (fun h2 => h h2.symm), if_neg h]
  | cons p ps ih =>
    by_cases hp : p.1 = k
    · simp only [dset, if_pos hp, dget_cons]
      by_cases h : k' = k
      · simp [h]
      · rw [if_neg (fun h2 => h h2.symm), if_neg h, hp,
          if_neg (fun h2 => h h2.symm)]
    · simp only [dset, if_neg hp, dget_cons, ih]
      by_cases hpk : p.1 = k'
      · have hkk : ¬ k' = k := fun h => hp (hpk.trans h)
        simp [hpk, hkk]
      · simp [hpk]

theorem dget_dset_self (d : PyDict) (k : String) (v : PyVal) :
    dget (dset d k v) k = some v := by
  simp [dget_dset]

theorem dget_dset_ne (d : PyDict) (k : String) (v : PyVal) (k' : String)
    (h : k' ≠ k) : dget (dset d k v) k' = dget d k' := by
  simp [dget_dset, h]

theorem dget_setArg_ne (intended d : PyDict) (dst src k' : String)
    (h : k' ≠ dst) : dget (setArg intended d dst src) k' = dget d k' := by
  unfold setArg
  cases dget intended src with
  | none => rfl
  | some v => exact dget_dset_ne d dst v k' h

theorem dget_setArg_self (intended d : PyDict) (dst src : String) :
    dget (setArg intended d dst src) dst =
      match dget intended src with
      | some v => some v
      | Option.none => dget d dst := by
  unfold setArg
  cases dget intended src with
  | none => rfl
  | some v => exact dget_dset_self d dst v

/-- Looking up a key in the schema filter: a key listed in the schema keeps
exactly its entries, a key not listed loses all of them. -/
theorem dget_filter_schema (d : PyDict) (sk : List String) (k : String) :
    dget (d.filter (fun kv => kv.1 ∈ sk)) k =
      if k ∈ sk then dget d k else Option.none := by
  induction d with
  | nil => simp [dget]
  | cons p ps ih =>
    by_cases hp : p.1 = k
    · subst hp
      by_cases hm : p.1 ∈ sk
      · simp [List.filter_cons, hm, dget_cons, ih]
      · simp [List.filter_cons, hm, dget_cons, ih]
    · by_cases hm : p.1 ∈ sk
      · simp [List.filter_cons, hm, dget_cons, hp, ih]
      · simp [List.filter_cons, hm, dget_cons, hp, ih]

/-! Lemmas about `chooseKey`: the chosen key's lower-casing is among the
candidates' lower-casings or is the default, which separates the slots of
`_adapt_arguments` from one another. -/

theorem keysLowerGet_lower (sk : List String) (c k : String)
    (h : keysLowerGet sk c = some k) : pyLower k = pyLower c := by
  have := List.find?_some h
  simpa using this

theorem findSome?_eq_some_exists {α β : Type} (f : α → Option β) :
    ∀ (l : List α) (b : β), l.findSome? f = some b → ∃ a ∈ l, f a = some b := by
  intro l
  induction l with
  | nil => intro b h; simp [List.findSome?] at h
  | cons a as ih =>
    intro b h
    rw [List.findSome?_cons] at h
    cases hfa : f a with
    | none =>
      rw [hfa] at h
      obtain ⟨x, hx, hfx⟩ := ih b h
      exact ⟨x, List.mem_cons_of_mem a hx, hfx⟩
    | some v =>
      rw [hfa] at h
      cases h
      exact ⟨a, List.mem_cons_self a as, hfa⟩

theorem chooseKey_lower_mem (sk : List String) (cands : List String)
    (dflt : String) :
    pyLower (chooseKey sk cands dflt) ∈ cands.map pyLower ++ [pyLower dflt] := by
  unfold chooseKey
  cases hfs : cands.findSome? (fun c =>
    match keysLowerGet sk c with
    | some k => if k ≠ "" then some k else Option.none
    | Option.none => Option.none) with
  | none => simp
  | some k =>
    obtain ⟨c, hc, hck⟩ := findSome?_eq_some_exists _ cands k hfs
    cases hkl : keysLowerGet sk c with
    | none => rw [hkl] at hck; simp at hck
    | some k2 =>
      rw [hkl] at hck
      by_cases hne : k2 ≠ ""
      · simp [hne] at hck
        subst hck
        have := keysLowerGet_lower sk c k2 hkl
        simp only [List.mem_append, List.mem_map]
        exact Or.inl ⟨c, hc, this.symm ▸ rfl⟩
      · simp [hne] at hck

/-- Distinctness of two chosen keys whose candidate lower-casing pools are
disjoint. -/
theorem chooseKey_ne_of_pools (sk : List String)
    (c1 c2 : List String) (d1 d2 : String)
    (h : ∀ x ∈ c1.map pyLower ++ [pyLower d1],
         ∀ y ∈ c2.map pyLower ++ [pyLower d2], x ≠ y) :
    chooseKey sk c1 d1 ≠ chooseKey sk c2 d2 := by
  intro heq
  exact h _ (chooseKey_lower_mem sk c1 d1) _ (chooseKey_lower_mem sk c2 d2)
    (by rw [heq])

/-- C1 (counterexample): the claim says a failed catalog fetch is always
absorbed into an empty provider entry with no exception reaching the caller,
but the handler catches only `TypeError`, `ValueError` and `AttributeError`;
the `RuntimeError` that `JiraMCPClient._ensure_client` raises when `JIRA_URL`
is unset propagates out of the first `list_tools` call. -/
theorem c1_catalog_cache_counterexample :
    registry_list_tools Option.none (.error jira_missing_url_error)
      (.ok (.list [])) = .error jira_missing_url_error := rfl

/-- C1 (amended): when a provider's catalog fetch fails with one of the
caught classes (`TypeError`, `ValueError`, `AttributeError`), that provider's
entry in the returned map is the empty list and no exception propagates;
failures of any other class (such as the configuration `RuntimeError`)
propagate to the caller; and once a map has been cached, every subsequent
call returns the identical cached map without consulting the fetches. -/
theorem c1_catalog_cache_amended :
    (∀ (e : PyExc) (raw : PyVal), registry_caught e.cls = true →
      registry_list_tools Option.none (.error e) (.ok raw) =
        .ok (⟨[], normalize_tools_list raw⟩,
             some ⟨[], normalize_tools_list raw⟩)) ∧
    (∀ (e : PyExc) (raw : PyVal), registry_caught e.cls = true →
      registry_list_tools Option.none (.ok raw) (.error e) =
        .ok (⟨normalize_tools_list raw, []⟩,
             some ⟨normalize_tools_list raw, []⟩)) ∧
    (∀ (e1 e2 : PyExc), registry_caught e1.cls = true →
      registry_caught e2.cls = true →
      registry_list_tools Option.none (.error e1) (.error e2) =
        .ok (⟨[], []⟩, some ⟨[], []⟩)) ∧
    (∀ (e : PyExc), registry_caught e.cls = false →
      ∀ (g : Except PyExc PyVal),
        registry_list_tools Option.none (.error e) g = .error e) ∧
    (∀ (m : Catalog) (j g : Except PyExc PyVal),
      registry_list_tools (some m) j g = .ok (m, some m)) := by
  refine ⟨?_, ?_, ?_, ?_, ?_⟩
  · intro e raw h
    simp [registry_list_tools, list_tools_once, h]
  · intro e raw h
    simp [registry_list_tools, list_tools_once, h]
  · intro e1 e2 h1 h2
    simp [registry_list_tools, list_tools_once, h1, h2]
  · intro e h g
    simp [registry_list_tools, list_tools_once, h]
  · intro m j g
    rfl

/-- C1 (witness): a caught `TypeError` on the Jira fetch yields the empty
Jira entry without raising. -/
theorem c1_catalog_cache_amended_witness :
    registry_list_tools Option.none (.error ⟨.typeError, "boom"⟩)
      (.ok (.list [])) = .ok (⟨[], []⟩, some ⟨[], []⟩) :=
  c1_catalog_cache_amended.1 ⟨.typeError, "boom"⟩ (.list []) rfl

/-- C6 (confirmed): when the lower-cased message contains none of the fixed
trigger substrings, `needsTools` is false and `orchestrate` returns the null
output for every catalog and every remote-call oracle, i.e. without the
catalog cache, the planner or the executor influencing the result. -/
theorem c6_intent_gate (msg : String)
    (h : ∀ t ∈ needs_tools_triggers, strIn t (pyLower msg) = false) :
    needs_tools msg = false ∧
      ∀ (cfg : Settings) (cat : Catalog)
        (call : String → String → PyDict → Except PyExc PyVal),
        orchestrate cfg cat call msg = .ok (Option.none, []) := by
  have hn : needs_tools msg = false := by
    unfold needs_tools
    rw [List.any_eq_false]
    intro t ht
    simp [h t ht]
  exact ⟨hn, fun cfg cat call => by simp [orchestrate, hn]⟩

/-- C6 (witness): a greeting without trigger words is gated out. -/
theorem c6_intent_gate_witness :
    needs_tools "good morning" = false ∧
      ∀ (cfg : Settings) (cat : Catalog)
        (call : String → String → PyDict → Except PyExc PyVal),
        orchestrate cfg cat call "good morning" = .ok (Option.none, []) :=
  c6_intent_gate "good morning" (by decide)

/-! Lemmas about case-insensitive deduplication, for the repo-filter claim. -/

/-- The set of lower-casings seen after processing `xs`. -/
def seenAfter (seen : List String) (xs : List String) : List String :=
  xs.foldl (fun s x => if pyLower x ∈ s then s else pyLower x :: s) seen

theorem dedupLowerAux_cons (seen : List String) (r : String) (rs : List String) :
    dedupLowerAux seen (r :: rs) =
      if pyLower r ∈ seen then dedupLowerAux seen rs
      else r :: dedupLowerAux (pyLower r :: seen) rs := rfl

theorem seenAfter_cons (seen : List String) (x : String) (xs : List String) :
    seenAfter seen (x :: xs) =
      seenAfter (if pyLower x ∈ seen then seen else pyLower x :: seen) xs := rfl

theorem dedupLowerAux_append (seen xs ys : List String) :
    dedupLowerAux seen (xs ++ ys) =
      dedupLowerAux seen xs ++ dedupLowerAux (seenAfter seen xs) ys := by
  induction xs generalizing seen with
  | nil => simp [dedupLowerAux, seenAfter]
  | cons x xs ih =>
    rw [List.cons_append, dedupLowerAux_cons, dedupLowerAux_cons, seenAfter_cons]
    by_cases h : pyLower x ∈ seen
    · rw [if_pos h, if_pos h, if_pos h, ih]
    · rw [if_neg h, if_neg h, if_neg h, ih, List.cons_append]

theorem dedupLowerAux_sublist (seen xs : List String) :
    List.Sublist (dedupLowerAux seen xs) xs := by
  induction xs generalizing seen with
  | nil => simp [dedupLowerAux]
  | cons x xs ih =>
    rw [dedupLowerAux_cons]
    by_cases h : pyLower x ∈ seen
    · rw [if_pos h]; exact (ih seen).cons x
    · rw [if_neg h]; exact (ih (pyLower x :: seen)).cons₂ x

theorem dedupLowerAux_fresh (seen xs : List String) :
    ∀ e ∈ dedupLowerAux seen xs, pyLower e ∉ seen := by
  induction xs generalizing seen with
  | nil => simp [dedupLowerAux]
  | cons x xs ih =>
    intro e he
    rw [dedupLowerAux_cons] at he
    by_cases h : pyLower x ∈ seen
    · exact ih seen e (by rwa [if_pos h] at he)
    · rw [if_neg h, List.mem_cons] at he
      cases he with
      | inl hx => simpa [hx] using h
      | inr hx =>
        have := ih (pyLower x :: seen) e hx
        exact fun hc => this (List.mem_cons_of_mem _ hc)

theorem dedupLowerAux_pairwise (seen xs : List String) :
    (dedupLowerAux seen xs).Pairwise (fun a b => pyLower a ≠ pyLower b) := by
  induction xs generalizing seen with
  | nil => simp [dedupLowerAux]
  | cons x xs ih =>
    rw [dedupLowerAux_cons]
    by_cases h : pyLower x ∈ seen
    · rw [if_pos h]; exact ih seen
    · rw [if_neg h]
      refine List.Pairwise.cons ?_ (ih (pyLower x :: seen))
      intro b hb heq
      exact dedupLowerAux_fresh _ _ b hb (heq ▸ List.mem_cons_self _ _)

theorem seenAfter_supset (seen xs : List String) :
    ∀ a ∈ seen, a ∈ seenAfter seen xs := by
  induction xs generalizing seen with
  | nil => intro a ha; simpa [seenAfter] using ha
  | cons x xs ih =>
    intro a ha
    rw [seenAfter_cons]
    by_cases h : pyLower x ∈ seen
    · rw [if_pos h]; exact ih seen a ha
    · rw [if_neg h]
      exact ih (pyLower x :: seen) a (List.mem_cons_of_mem _ ha)

theorem mem_seenAfter (seen xs : List String) :
    ∀ x ∈ xs, pyLower x ∈ seenAfter seen xs := by
  induction xs generalizing seen with
  | nil => simp
  | cons y xs ih =>
    intro x hx
    rw [seenAfter_cons]
    cases hx with
    | head =>
      by_cases h : pyLower y ∈ seen
      · rw [if_pos h]
        exact seenAfter_supset seen xs _ h
      · rw [if_neg h]
        exact seenAfter_supset _ xs _ (List.mem_cons_self _ _)
    | tail _ hx => exact ih _ x hx

theorem dedupLowerAux_covers (seen xs : List String) :
    ∀ x ∈ xs, pyLower x ∉ seen →
      ∃ e ∈ dedupLowerAux seen xs, pyLower e = pyLower x := by
  induction xs generalizing seen with
  | nil => simp
  | cons y xs ih =>
    intro x hx hfresh
    rw [dedupLowerAux_cons]
    by_cases h : pyLower y ∈ seen
    · rw [if_pos h]
      cases hx with
      | head => exact absurd h (by simpa using hfresh)
      | tail _ hx => exact ih seen x hx hfresh
    · rw [if_neg h]
      cases hx with
      | head => exact ⟨y, List.mem_cons_self _ _, rfl⟩
      | tail _ hx =>
        by_cases hxy : pyLower x = pyLower y
        · exact ⟨y, List.mem_cons_self _ _, hxy.symm⟩
        · obtain ⟨e, he, heq⟩ := ih (pyLower y :: seen) x hx
            (by
              intro hc
              cases List.mem_cons.mp hc with
              | inl h1 => exact hxy h1
              | inr h1 => exact hfresh h1)
          exact ⟨e, List.mem_cons_of_mem _ he, heq⟩

/-- C9 (confirmed): for a message carrying `repo:OWNER/NAME` tokens, the
extracted filter list is the deduplicated matched tokens followed by those
configured defaults (including the pair from the single-repository URL) that
are case-fresh; every matched pair is represented in the leading segment, no
trailing entry collides with a match up to case, the whole list is pairwise
distinct up to case, and it preserves first-seen order as a sublist of
matches followed by defaults. -/
theorem c9_repo_filter_order (cfg : Settings) (msg : String)
    (h : find_repo_tokens msg ≠ []) :
    parse_repo_filters cfg msg =
      dedupLowerAux [] (find_repo_tokens msg) ++
        dedupLowerAux (seenAfter [] (find_repo_tokens msg))
          (default_repo_filters cfg) ∧
    (∀ m ∈ find_repo_tokens msg,
      ∃ e ∈ dedupLowerAux [] (find_repo_tokens msg),
        pyLower e = pyLower m) ∧
    (∀ r ∈ dedupLowerAux (seenAfter [] (find_repo_tokens msg))
        (default_repo_filters cfg),
      ∀ m ∈ find_repo_tokens msg, pyLower r ≠ pyLower m) ∧
    (parse_repo_filters cfg msg).Pairwise
      (fun a b => pyLower a ≠ pyLower b) ∧
    List.Sublist (parse_repo_filters cfg msg)
      (find_repo_tokens msg ++ default_repo_filters cfg) := by
  have hdecomp : parse_repo_filters cfg msg =
      dedupLowerAux [] (find_repo_tokens msg) ++
        dedupLowerAux (seenAfter [] (find_repo_tokens msg))
          (default_repo_filters cfg) := by
    unfold parse_repo_filters
    exact dedupLowerAux_append [] _ _
  have hfreshRest : ∀ r ∈ dedupLowerAux (seenAfter [] (find_repo_tokens msg))
      (default_repo_filters cfg),
      ∀ m ∈ find_repo_tokens msg, pyLower r ≠ pyLower m := by
    intro r hr m hm heq
    exact dedupLowerAux_fresh _ _ r hr (heq ▸ mem_seenAfter [] _ m hm)
  refine ⟨hdecomp, ?_, hfreshRest, ?_, ?_⟩
  · intro m hm
    exact dedupLowerAux_covers [] _ m hm (by simp)
  · rw [hdecomp]
    rw [List.pairwise_append]
    refine ⟨dedupLowerAux_pairwise _ _, dedupLowerAux_pairwise _ _, ?_⟩
    intro a ha b hb
    have hamem : a ∈ find_repo_tokens msg :=
      (dedupLowerAux_sublist [] _).subset ha
    exact fun heq => hfreshRest b hb a hamem (heq ▸ rfl)
  · rw [hdecomp]
    exact (dedupLowerAux_sublist _ _).append (dedupLowerAux_sublist _ _)

/-! Lemmas about the aggregation loop. -/

/-- The single line appended for one `(task, outcome)` pair. -/
def pair_line (p : Task × Except PyExc PyVal) : String :=
  match p.2 with
  | .ok v => task_label p.1 ++ ": " ++ toString (count_of v) ++ " results"
  | .error e => task_label p.1 ++ ": error " ++ e.msg

/-- A successful payload whose raw issue arrays (the citation fast path)
hold only objects in the first five positions, so that the citation loop
cannot raise `AttributeError` on it. -/
def payload_safe (r : PyVal) : Bool :=
  match raw_issue_items r with
  | some its => (its.take 5).all isDictB
  | Option.none => true

/-- Every value stored in the structured buckets is a dict. -/
def structured_wf (B : List (String × List PyVal)) : Prop :=
  ∀ p ∈ B, ∀ v ∈ p.2, isDictB v = true

theorem agg_pairs_cons (cfg : Settings) (st : AggState) (t : Task)
    (r : Except PyExc PyVal) (ps : List (Task × Except PyExc PyVal)) :
    agg_pairs cfg st ((t, r) :: ps) =
      match agg_step cfg st t r with
      | .ok st2 => agg_pairs cfg st2 ps
      | .error e => .error e := rfl

theorem agg_pairs_append (cfg : Settings)
    (xs ys : List (Task × Except PyExc PyVal)) :
    ∀ st, agg_pairs cfg st (xs ++ ys) =
      match agg_pairs cfg st xs with
      | .ok st2 => agg_pairs cfg st2 ys
      | .error e => .error e := by
  induction xs with
  | nil => intro st; rfl
  | cons p ps ih =>
    intro st
    obtain ⟨t, r⟩ := p
    rw [List.cons_append, agg_pairs_cons, agg_pairs_cons]
    cases agg_step cfg st t r with
    | ok st2 => exact ih st2
    | error e => rfl

theorem agg_step_shift (cfg : Settings) (t : Task) (r : Except PyExc PyVal)
    (L : List String) (S : List SourceInfo) (B : List (String × List PyVal)) :
    agg_step cfg ⟨L, S, B⟩ t r =
      (agg_step cfg ⟨[], [], B⟩ t r).map
        (fun st => ⟨L ++ st.lines, S ++ st.sources, st.structured⟩) := by
  unfold agg_step
  cases r with
  | error e => simp [Except.map]
  | ok rv =>
    cases h : sources_of_items 1
        ((items_for_sources t rv (structured_update cfg t rv B)).take 5) with
    | ok ss => simp [h, Except.map]
    | error e => simp [h, Except.map]

theorem agg_pairs_shift (cfg : Settings)
    (ps : List (Task × Except PyExc PyVal)) :
    ∀ (L : List String) (S : List SourceInfo) (B : List (String × List PyVal)),
      agg_pairs cfg ⟨L, S, B⟩ ps =
        (agg_pairs cfg ⟨[], [], B⟩ ps).map
          (fun st => ⟨L ++ st.lines, S ++ st.sources, st.structured⟩) := by
  induction ps with
  | nil => intro L S B; simp [agg_pairs, Except.map]
  | cons p ps ih =>
    intro L S B
    obtain ⟨t, r⟩ := p
    rw [agg_pairs_cons, agg_pairs_cons, agg_step_shift]
    cases h : agg_step cfg ⟨[], [], B⟩ t r with
    | error e => simp [Except.map]
    | ok st1 =>
      obtain ⟨l1, s1, b1⟩ := st1
      simp only [Except.map]
      rw [ih, ih l1 s1 b1]
      cases agg_pairs cfg ⟨[], [], b1⟩ ps with
      | ok st2 => simp [Except.map, List.append_assoc]
      | error e => simp [Except.map]

/-- Each citation entry built by the loop has a preview of at most 200
characters, and one entry is built per item. -/
theorem sources_of_items_spec :
    ∀ (idx : Nat) (items : List PyVal) (ss : List SourceInfo),
      sources_of_items idx items = .ok ss →
      ss.length = items.length ∧
        ∀ s ∈ ss, s.content_preview.length ≤ 200 := by
  intro idx items
  induction items generalizing idx with
  | nil =>
    intro ss h
    cases h
    exact ⟨rfl, by simp⟩
  | cons it its ih =>
    intro ss h
    unfold sources_of_items at h
    cases hs : source_of_item idx it with
    | error e => rw [hs] at h; cases h
    | ok s =>
      rw [hs] at h
      cases hr : sources_of_items (idx + 1) its with
      | error e => rw [hr] at h; cases h
      | ok rest =>
        rw [hr] at h
        simp only [Except.map] at h
        cases h
        obtain ⟨hlen, hprev⟩ := ih (idx + 1) rest hr
        have hsp : s.content_preview.length ≤ 200 := by
          cases it with
          | dict d =>
            simp only [source_of_item] at hs
            cases hs
            show (pyTake _ 200).length ≤ 200
            unfold pyTake
            show (String.mk _).data.length ≤ 200
            simpa using List.length_take_le 200 _
          | none => simp [source_of_item] at hs
          | bool b => simp [source_of_item] at hs
          | int n => simp [source_of_item] at hs
          | str s2 => simp [source_of_item] at hs
          | list l => simp [source_of_item] at hs
        refine ⟨by simp [hlen], ?_⟩
        intro x hx
        cases List.mem_cons.mp hx with
        | inl he => exact he ▸ hsp
        | inr he => exact hprev x he

/-- When every item is a dict, the citation loop succeeds. -/
theorem sources_of_items_ok :
    ∀ (idx : Nat) (items : List PyVal),
      (∀ it ∈ items, isDictB it = true) →
      ∃ ss, sources_of_items idx items = .ok ss := by
  intro idx items
  induction items generalizing idx with
  | nil => intro _; exact ⟨[], rfl⟩
  | cons it its ih =>
    intro h
    obtain ⟨rest, hrest⟩ := ih (idx + 1) (fun x hx => h x (List.mem_cons_of_mem _ hx))
    cases it with
    | dict d =>
      exact ⟨_, by rw [sources_of_items, source_of_item, hrest]; rfl⟩
    | none => exact absurd (h _ (List.mem_cons_self _ _)) (by simp [isDictB])
    | bool b => exact absurd (h _ (List.mem_cons_self _ _)) (by simp [isDictB])
    | int n => exact absurd (h _ (List.mem_cons_self _ _)) (by simp [isDictB])
    | str s2 => exact absurd (h _ (List.mem_cons_self _ _)) (by simp [isDictB])
    | list l => exact absurd (h _ (List.mem_cons_self _ _)) (by simp [isDictB])

theorem agg_step_error (cfg : Settings) (st : AggState) (t : Task) (e : PyExc) :
    agg_step cfg st t (.error e) =
      .ok { st with lines := st.lines ++ [pair_line (t, .error e)] } := rfl

/-- The shape of a successful aggregation step started from an empty-lines,
empty-sources state: one line, the provider-specific structured update, and
at most five citation entries each with a bounded preview. -/
theorem agg_step_ok_spec (cfg : Settings) (t : Task) (r : Except PyExc PyVal)
    (B : List (String × List PyVal)) (st1 : AggState)
    (h : agg_step cfg ⟨[], [], B⟩ t r = .ok st1) :
    st1.lines = [pair_line (t, r)] ∧
    st1.structured = (match r with
      | .ok rv => structured_update cfg t rv B
      | .error _ => B) ∧
    st1.sources.length ≤ 5 ∧
    (∀ s ∈ st1.sources, s.content_preview.length ≤ 200) := by
  cases r with
  | error e =>
    rw [agg_step_error] at h
    cases h
    exact ⟨rfl, rfl, by simp, by simp⟩
  | ok rv =>
    simp only [agg_step] at h
    cases hs : sources_of_items 1
        ((items_for_sources t rv (structured_update cfg t rv B)).take 5) with
    | error e => rw [hs] at h; cases h
    | ok ss =>
      rw [hs] at h
      cases h
      obtain ⟨hlen, hprev⟩ := sources_of_items_spec 1 _ ss hs
      refine ⟨rfl, rfl, ?_, ?_⟩
      · show ([] ++ ss).length ≤ 5
        rw [List.nil_append, hlen]
        exact List.length_take_le 5 _
      · intro s hsm
        exact hprev s (by simpa using hsm)

/-- Source bounds of one aggregation step from an arbitrary state. -/
theorem agg_step_bounds (cfg : Settings) (st0 : AggState) (t : Task)
    (r : Except PyExc PyVal) (st1 : AggState)
    (h : agg_step cfg st0 t r = .ok st1) :
    st1.sources.length ≤ st0.sources.length + 5 ∧
    ∀ s ∈ st1.sources, s ∈ st0.sources ∨ s.content_preview.length ≤ 200 := by
  obtain ⟨l0, s0, b0⟩ := st0
  rw [agg_step_shift] at h
  cases hs : agg_step cfg ⟨[], [], b0⟩ t r with
  | error e => rw [hs] at h; cases h
  | ok stc =>
    rw [hs] at h
    simp only [Except.map] at h
    cases h
    obtain ⟨_, _, hlen, hprev⟩ := agg_step_ok_spec cfg t r b0 stc hs
    constructor
    · simpa using Nat.add_le_add_left hlen s0.length
    · intro s hsm
      rcases List.mem_append.mp hsm with hm | hm
      · exact Or.inl hm
      · exact Or.inr (hprev s hm)

/-- Source bounds of a whole aggregation run: at most five citations per
pair, and every new citation preview is at most 200 characters. -/
theorem agg_pairs_bounds (cfg : Settings)
    (ps : List (Task × Except PyExc PyVal)) :
    ∀ (st0 st' : AggState), agg_pairs cfg st0 ps = .ok st' →
      st'.sources.length ≤ st0.sources.length + 5 * ps.length ∧
      ∀ s ∈ st'.sources, s ∈ st0.sources ∨ s.content_preview.length ≤ 200 := by
  induction ps with
  | nil =>
    intro st0 st' h
    cases h
    exact ⟨by simp, fun s hs => Or.inl hs⟩
  | cons p ps ih =>
    intro st0 st' h
    obtain ⟨t, r⟩ := p
    rw [agg_pairs_cons] at h
    cases hs : agg_step cfg st0 t r with
    | error e => rw [hs] at h; cases h
    | ok st1 =>
      rw [hs] at h
      obtain ⟨hlen1, hprev1⟩ := agg_step_bounds cfg st0 t r st1 hs
      obtain ⟨hlen2, hprev2⟩ := ih st1 st' h
      constructor
      · calc st'.sources.length ≤ st1.sources.length + 5 * ps.length := hlen2
          _ ≤ st0.sources.length + 5 + 5 * ps.length :=
            Nat.add_le_add_right hlen1 _
          _ = st0.sources.length + 5 * (ps.length + 1) := by ring
          _ = st0.sources.length + 5 * ((t, r) :: ps).length := by
            simp [List.length_cons]
      · intro s hs2
        rcases hprev2 s hs2 with hm | hb
        · exact hprev1 s hm
        · exact Or.inr hb

/-! Dict-ness of every normalized record, and its preservation through the
structured buckets. -/

theorem normalize_issue_isDict (cfg : Settings) (raw : PyDict) :
    isDictB (normalize_issue cfg raw) = true := rfl

theorem normalize_issue_list_dicts (cfg : Settings) (its : List PyVal) :
    ∀ v ∈ normalize_issue_list cfg its, isDictB v = true := by
  intro v hv
  obtain ⟨it, _, hit⟩ := List.mem_filterMap.mp hv
  cases it with
  | dict d => cases hit; exact normalize_issue_isDict cfg d
  | none => cases hit
  | bool b => cases hit
  | int n => cases hit
  | str s => cases hit
  | list l => cases hit

theorem entry_issues_dicts (cfg : Settings) (e : PyVal) :
    ∀ v ∈ entry_issues cfg e, isDictB v = true := by
  intro v hv
  cases e with
  | dict ed =>
    rcases hget : dget ed "issues" with _ | w
    · simp only [entry_issues, hget] at hv
      cases hv
    · simp only [entry_issues, hget] at hv
      cases w with
      | list its => exact normalize_issue_list_dicts cfg its v hv
      | none => cases hv
      | bool b => cases hv
      | int n => cases hv
      | str s => cases hv
      | dict d2 => cases hv
  | none => cases hv
  | bool b => cases hv
  | int n => cases hv
  | str s => cases hv
  | list l => cases hv

theorem issues_of_entries_dicts (cfg : Settings) (entries : List PyVal) :
    ∀ v ∈ issues_of_entries cfg entries, isDictB v = true := by
  induction entries with
  | nil => simp [issues_of_entries]
  | cons e es ih =>
    intro v hv
    rcases List.mem_append.mp hv with hm | hm
    · exact entry_issues_dicts cfg e v hm
    · exact ih v hm

theorem jira_items_part_dicts (cfg : Settings) (d : PyDict) :
    ∀ v ∈ jira_items_part cfg d, isDictB v = true := by
  intro v hv
  rcases hget : dget d "items" with _ | w
  · simp only [jira_items_part, hget] at hv
    cases hv
  · simp only [jira_items_part, hget] at hv
    cases w with
    | list entries => exact issues_of_entries_dicts cfg entries v hv
    | none => cases hv
    | bool b => cases hv
    | int n => cases hv
    | str s => cases hv
    | dict d2 => cases hv

theorem jira_dict_rest_dicts (cfg : Settings) (d : PyDict) :
    ∀ v ∈ jira_dict_rest cfg d, isDictB v = true := by
  intro v hv
  rcases hget : dget d "issues" with _ | w
  · simp only [jira_dict_rest, hget] at hv
    rcases hget2 : dget d "issue" with _ | w2
    · simp only [hget2] at hv
      rcases List.mem_singleton.mp hv with rfl
      exact normalize_issue_isDict cfg d
    · simp only [hget2] at hv
      cases w2 with
      | dict inner =>
        rcases List.mem_singleton.mp hv with rfl
        exact normalize_issue_isDict cfg inner
      | none =>
        rcases List.mem_singleton.mp hv with rfl
        exact normalize_issue_isDict cfg d
      | bool b =>
        rcases List.mem_singleton.mp hv with rfl
        exact normalize_issue_isDict cfg d
      | int n =>
        rcases List.mem_singleton.mp hv with rfl
        exact normalize_issue_isDict cfg d
      | str s =>
        rcases List.mem_singleton.mp hv with rfl
        exact normalize_issue_isDict cfg d
      | list l =>
        rcases List.mem_singleton.mp hv with rfl
        exact normalize_issue_isDict cfg d
  · simp only [jira_dict_rest, hget] at hv
    cases w with
    | list its => exact normalize_issue_list_dicts cfg its v hv
    | none =>
      rcases hget2 : dget d "issue" with _ | w2 <;>
        simp only [hget2] at hv
      · rcases List.mem_singleton.mp hv with rfl
        exact normalize_issue_isDict cfg d
      · cases w2 <;>
          first
          | (rcases List.mem_singleton.mp hv with rfl
             exact normalize_issue_isDict cfg _)
    | bool b =>
      rcases hget2 : dget d "issue" with _ | w2 <;>
        simp only [hget2] at hv
      · rcases List.mem_singleton.mp hv with rfl
        exact normalize_issue_isDict cfg d
      · cases w2 <;>
          first
          | (rcases List.mem_singleton.mp hv with rfl
             exact normalize_issue_isDict cfg _)
    | int n =>
      rcases hget2 : dget d "issue" with _ | w2 <;>
        simp only [hget2] at hv
      · rcases List.mem_singleton.mp hv with rfl
        exact normalize_issue_isDict cfg d
      · cases w2 <;>
          first
          | (rcases List.mem_singleton.mp hv with rfl
             exact normalize_issue_isDict cfg _)
    | str s =>
      rcases hget2 : dget d "issue" with _ | w2 <;>
        simp only [hget2] at hv
      · rcases List.mem_singleton.mp hv with rfl
        exact normalize_issue_isDict cfg d
      · cases w2 <;>
          first
          | (rcases List.mem_singleton.mp hv with rfl
             exact normalize_issue_isDict cfg _)
    | dict d2 =>
      rcases hget2 : dget d "issue" with _ | w2 <;>
        simp only [hget2] at hv
      · rcases List.mem_singleton.mp hv with rfl
        exact normalize_issue_isDict cfg d
      · cases w2 <;>
          first
          | (rcases List.mem_singleton.mp hv with rfl
             exact normalize_issue_isDict cfg _)

theorem jira_issues_from_payload_dicts (cfg : Settings) (payload : PyVal) :
    ∀ v ∈ jira_issues_from_payload cfg payload, isDictB v = true := by
  intro v hv
  cases payload with
  | list entries => exact issues_of_entries_dicts cfg entries v hv
  | dict d =>
    rcases List.mem_append.mp hv with hm | hm
    · exact jira_items_part_dicts cfg d v hm
    · exact jira_dict_rest_dicts cfg d v hm
  | none => cases hv
  | bool b => cases hv
  | int n => cases hv
  | str s => cases hv

theorem github_search_items_dicts (payload : PyVal) :
    ∀ it ∈ github_search_items payload, isDictB it = true := by
  intro it hit
  cases payload with
  | dict d =>
    rcases hget : dget d "items" with _ | w
    · simp only [github_search_items, hget, List.not_mem_nil] at hit
    · simp only [github_search_items, hget] at hit
      cases w with
      | list its => exact (List.mem_filter.mp hit).2
      | none => simp at hit
      | bool b => simp at hit
      | int n => simp at hit
      | str s => simp at hit
      | dict d2 => simp at hit
  | list its =>
    simp only [github_search_items] at hit
    exact (List.mem_filter.mp hit).2
  | none => simp only [github_search_items, List.not_mem_nil] at hit
  | bool b => simp only [github_search_items, List.not_mem_nil] at hit
  | int n => simp only [github_search_items, List.not_mem_nil] at hit
  | str s => simp only [github_search_items, List.not_mem_nil] at hit

theorem github_commits_items_dicts (payload : PyVal) :
    ∀ it ∈ github_commits_items payload, isDictB it = true := by
  intro it hit
  cases payload with
  | list xs =>
    simp only [github_commits_items] at hit
    exact (List.mem_filter.mp hit).2
  | dict d =>
    rcases h1 : as_list_opt (dget d "commits") with _ | xs1
    · rcases h2 : as_list_opt (dget d "items") with _ | xs2
      · rcases h3 : as_list_opt (dget d "results") with _ | xs3
        · simp only [github_commits_items, h1, h2, h3, List.not_mem_nil] at hit
        · simp only [github_commits_items, h1, h2, h3] at hit
          exact (List.mem_filter.mp hit).2
      · simp only [github_commits_items, h1, h2] at hit
        exact (List.mem_filter.mp hit).2
    · simp only [github_commits_items, h1] at hit
      exact (List.mem_filter.mp hit).2
  | none => simp only [github_commits_items, List.not_mem_nil] at hit
  | bool b => simp only [github_commits_items, List.not_mem_nil] at hit
  | int n => simp only [github_commits_items, List.not_mem_nil] at hit
  | str s => simp only [github_commits_items, List.not_mem_nil] at hit

theorem github_issues_from_payload_dicts (payload : PyVal) :
    ∀ v ∈ github_issues_from_payload payload, isDictB v = true := by
  intro v hv
  obtain ⟨it, hit, heq⟩ := List.mem_map.mp hv
  have hd := github_search_items_dicts payload it hit
  cases it with
  | dict d => cases heq; rfl
  | none => simp [isDictB] at hd
  | bool b => simp [isDictB] at hd
  | int n => simp [isDictB] at hd
  | str s => simp [isDictB] at hd
  | list l => simp [isDictB] at hd

theorem github_repos_from_payload_dicts (payload : PyVal) :
    ∀ v ∈ github_repos_from_payload payload, isDictB v = true := by
  intro v hv
  obtain ⟨it, hit, heq⟩ := List.mem_map.mp hv
  have hd := github_search_items_dicts payload it hit
  cases it with
  | dict d => cases heq; rfl
  | none => simp [isDictB] at hd
  | bool b => simp [isDictB] at hd
  | int n => simp [isDictB] at hd
  | str s => simp [isDictB] at hd
  | list l => simp [isDictB] at hd

theorem github_commits_from_payload_dicts (payload : PyVal) :
    ∀ v ∈ github_commits_from_payload payload, isDictB v = true := by
  intro v hv
  obtain ⟨it, hit, heq⟩ := List.mem_map.mp hv
  have hd := github_commits_items_dicts payload it hit
  cases it with
  | dict d => cases heq; rfl
  | none => simp [isDictB] at hd
  | bool b => simp [isDictB] at hd
  | int n => simp [isDictB] at hd
  | str s => simp [isDictB] at hd
  | list l => simp [isDictB] at hd

theorem buckets_extend_wf (B : List (String × List PyVal)) (k : String)
    (vs : List PyVal) (hB : structured_wf B)
    (hvs : ∀ v ∈ vs, isDictB v = true) :
    structured_wf (buckets_extend B k vs) := by
  unfold buckets_extend
  split
  · intro p hp v hv
    obtain ⟨q, hq, hmap⟩ := List.mem_map.mp hp
    by_cases hk : q.1 = k
    · rw [if_pos hk] at hmap
      subst hmap
      rcases List.mem_append.mp hv with hm | hm
      · exact hB q hq v hm
      · exact hvs v hm
    · rw [if_neg hk] at hmap
      subst hmap
      exact hB q hq v hv
  · intro p hp v hv
    rcases List.mem_append.mp hp with hm | hm
    · exact hB p hm v hv
    · rcases List.mem_singleton.mp hm with rfl
      exact hvs v hv

theorem structured_update_wf (cfg : Settings) (t : Task) (rv : PyVal)
    (B : List (String × List PyVal)) (hB : structured_wf B) :
    structured_wf (structured_update cfg t rv B) := by
  simp only [structured_update]
  split_ifs <;>
    first
      | exact hB
      | exact buckets_extend_wf _ _ _ hB (jira_issues_from_payload_dicts cfg rv)
      | exact buckets_extend_wf _ _ _ hB (github_issues_from_payload_dicts rv)
      | exact buckets_extend_wf _ _ _ hB (github_repos_from_payload_dicts rv)
      | exact buckets_extend_wf _ _ _ hB (github_commits_from_payload_dicts rv)
      | exact buckets_extend_wf _ _ _ hB (github_commits_from_payload_dicts _)

theorem bucket_get_dicts (B : List (String × List PyVal)) (k : String)
    (hB : structured_wf B) :
    ∀ v ∈ bucket_get B k, isDictB v = true := by
  intro v hv
  unfold bucket_get at hv
  cases hf : B.find? (fun p => p.1 = k) with
  | none => rw [hf] at hv; cases hv
  | some p =>
    rw [hf] at hv
    have hv2 : v ∈ p.2 := hv
    exact hB p (List.mem_of_find?_eq_some hf) v hv2

theorem items_for_sources_take_dicts (t : Task) (rv : PyVal)
    (B : List (String × List PyVal)) (hB : structured_wf B)
    (hsafe : payload_safe rv = true) :
    ∀ it ∈ (items_for_sources t rv B).take 5, isDictB it = true := by
  intro it hit
  unfold items_for_sources at hit
  cases hraw : raw_issue_items rv with
  | some its =>
    rw [hraw] at hit
    unfold payload_safe at hsafe
    rw [hraw] at hsafe
    exact List.all_eq_true.mp hsafe it hit
  | none =>
    rw [hraw] at hit
    have hmem := List.mem_of_mem_take hit
    split_ifs at hmem <;>
      first
        | exact bucket_get_dicts B _ hB it hmem
        | cases hmem

theorem agg_step_ok_of_safe (cfg : Settings) (t : Task) (rv : PyVal)
    (B : List (String × List PyVal)) (hB : structured_wf B)
    (hsafe : payload_safe rv = true) :
    ∃ st1, agg_step cfg ⟨[], [], B⟩ t (.ok rv) = .ok st1 := by
  obtain ⟨ss, hss⟩ := sources_of_items_ok 1
    ((items_for_sources t rv (structured_update cfg t rv B)).take 5)
    (items_for_sources_take_dicts t rv _ (structured_update_wf cfg t rv B hB)
      hsafe)
  simp only [agg_step]
  rw [hss]
  exact ⟨_, rfl⟩

theorem agg_pairs_ok_of_safe (cfg : Settings)
    (ps : List (Task × Except PyExc PyVal)) :
    ∀ B, structured_wf B →
      (∀ p ∈ ps, ∃ v, p.2 = Except.ok v ∧ payload_safe v = true) →
      ∃ st, agg_pairs cfg ⟨[], [], B⟩ ps = .ok st ∧
        structured_wf st.structured := by
  induction ps with
  | nil => intro B hB _; exact ⟨⟨[], [], B⟩, rfl, hB⟩
  | cons p ps ih =>
    intro B hB hsafe
    obtain ⟨t, r⟩ := p
    obtain ⟨v, hv, hvs⟩ := hsafe (t, r) (List.mem_cons_self _ _)
    subst hv
    obtain ⟨st1, hst1⟩ := agg_step_ok_of_safe cfg t v B hB hvs
    have hspec := agg_step_ok_spec cfg t (.ok v) B st1 hst1
    obtain ⟨l1, s1, b1⟩ := st1
    have hb1 : b1 = structured_update cfg t v B := hspec.2.1
    have hwf1 : structured_wf b1 := by
      rw [hb1]
      exact structured_update_wf cfg t v B hB
    obtain ⟨st2, hst2, hwf2⟩ :=
      ih b1 hwf1 (fun q hq => hsafe q (List.mem_cons_of_mem _ hq))
    refine ⟨⟨l1 ++ st2.lines, s1 ++ st2.sources, st2.structured⟩, ?_, hwf2⟩
    rw [agg_pairs_cons, hst1]
    show agg_pairs cfg ⟨l1, s1, b1⟩ ps =
      Except.ok ⟨l1 ++ st2.lines, s1 ++ st2.sources, st2.structured⟩
    rw [agg_pairs_shift cfg ps l1 s1 b1, hst2]
    rfl

theorem agg_pairs_ok_lines (cfg : Settings)
    (ps : List (Task × Except PyExc PyVal)) :
    ∀ (B : List (String × List PyVal)) (st' : AggState),
      agg_pairs cfg ⟨[], [], B⟩ ps = .ok st' →
      st'.lines = ps.map pair_line := by
  induction ps with
  | nil => intro B st' h; cases h; rfl
  | cons p ps ih =>
    intro B st' h
    obtain ⟨t, r⟩ := p
    rw [agg_pairs_cons] at h
    cases hs : agg_step cfg ⟨[], [], B⟩ t r with
    | error e => rw [hs] at h; cases h
    | ok st1 =>
      rw [hs] at h
      have hl0 := (agg_step_ok_spec cfg t r B st1 hs).1
      obtain ⟨l1, s1, b1⟩ := st1
      have hl1 : l1 = [pair_line (t, r)] := hl0
      replace h : agg_pairs cfg ⟨l1, s1, b1⟩ ps = Except.ok st' := h
      rw [agg_pairs_shift cfg ps l1 s1 b1] at h
      cases h2 : agg_pairs cfg ⟨[], [], b1⟩ ps with
      | error e => rw [h2] at h; cases h
      | ok st2 =>
        rw [h2] at h
        simp only [Except.map] at h
        cases h
        show l1 ++ st2.lines = List.map pair_line ((t, r) :: ps)
        rw [hl1, ih b1 st2 h2, List.map_cons, List.singleton_append]

/-- The configuration with every field empty. -/
def cfg_empty : Settings := ⟨"", "", "", ""⟩

/-- A planned issue-tracker search task (used by the aggregation claims). -/
def c2_ok_task : Task := ⟨"jira", "search_issues", Option.none, []⟩

/-- A second planned issue-tracker task whose call will fail. -/
def c2_fail_task : Task := ⟨"jira", "create_issue", Option.none, []⟩

/-- C2 (counterexample): with one failing call and one successful call whose
payload's raw `issues` array holds a non-object, the aggregator raises
`AttributeError` while building citations and emits no error line at all, so
the claim's unconditional "exactly one error line plus the siblings'
results" does not hold. -/
theorem c2_failure_isolation_counterexample :
    aggregate cfg_empty [c2_ok_task, c2_fail_task]
      [.ok (.dict [("issues", .list [.int 42])]),
       .error ⟨.runtimeError, "boom"⟩] =
      .error ⟨.attributeError, "object has no attribute get"⟩ := rfl

/-- C2 (amended): the executor returns one outcome per planned task, and —
provided every successful payload is citation-safe (its raw issue arrays
hold objects in the first five positions, otherwise aggregation itself
raises, see the counterexample) — aggregating a batch with exactly one
failure succeeds, emits the single error line `provider.tool: error <msg>`
at the failed task's position with every sibling's count line intact, and
leaves the structured buckets and citations identical to those of the batch
without the failed task. -/
theorem c2_failure_isolation (cfg : Settings)
    (xs ys : List (Task × Except PyExc PyVal)) (tf : Task) (ef : PyExc)
    (hsafe : ∀ p ∈ xs ++ ys, ∃ v, p.2 = Except.ok v ∧ payload_safe v = true) :
    (∀ (call : String → String → PyDict → Except PyExc PyVal)
        (tasks : List Task),
      (∀ t ∈ tasks, t.provider = "jira" ∨ t.provider = "github") →
      (execute cfg call tasks).length = tasks.length) ∧
    ∃ st st0,
      agg_pairs cfg ⟨[], [], []⟩ (xs ++ (tf, Except.error ef) :: ys) =
        Except.ok st ∧
      agg_pairs cfg ⟨[], [], []⟩ (xs ++ ys) = Except.ok st0 ∧
      st.lines = xs.map pair_line ++
        (task_label tf ++ ": error " ++ ef.msg) :: ys.map pair_line ∧
      st0.lines = xs.map pair_line ++ ys.map pair_line ∧
      st.structured = st0.structured ∧
      st.sources = st0.sources := by
  constructor
  · intro call tasks h
    unfold execute
    rw [List.length_map, List.filter_eq_self.mpr]
    intro a ha
    rcases h a ha with h1 | h1 <;> simp [h1]
  · have hwfnil : structured_wf [] := fun p hp => absurd hp (List.not_mem_nil p)
    obtain ⟨stx, hstx, hwfx⟩ := agg_pairs_ok_of_safe cfg xs [] hwfnil
      (fun p hp => hsafe p (List.mem_append.mpr (Or.inl hp)))
    obtain ⟨lx, sx, bx⟩ := stx
    have hwfx2 : structured_wf bx := hwfx
    obtain ⟨sty, hsty, _⟩ := agg_pairs_ok_of_safe cfg ys bx hwfx2
      (fun p hp => hsafe p (List.mem_append.mpr (Or.inr hp)))
    have hlx : lx = xs.map pair_line :=
      agg_pairs_ok_lines cfg xs [] ⟨lx, sx, bx⟩ hstx
    have hly : sty.lines = ys.map pair_line :=
      agg_pairs_ok_lines cfg ys bx sty hsty
    have hfull : agg_pairs cfg ⟨[], [], []⟩
        (xs ++ (tf, Except.error ef) :: ys) =
        Except.ok ⟨(lx ++ [task_label tf ++ ": error " ++ ef.msg]) ++ sty.lines,
                   sx ++ sty.sources, sty.structured⟩ := by
      rw [agg_pairs_append cfg xs ((tf, Except.error ef) :: ys) ⟨[], [], []⟩,
        hstx]
      show agg_pairs cfg ⟨lx, sx, bx⟩ ((tf, Except.error ef) :: ys) = _
      rw [agg_pairs_cons, agg_step_error]
      show agg_pairs cfg
        ⟨lx ++ [task_label tf ++ ": error " ++ ef.msg], sx, bx⟩ ys = _
      rw [agg_pairs_shift cfg ys (lx ++ [task_label tf ++ ": error " ++ ef.msg])
        sx bx, hsty]
      rfl
    have hrest : agg_pairs cfg ⟨[], [], []⟩ (xs ++ ys) =
        Except.ok ⟨lx ++ sty.lines, sx ++ sty.sources, sty.structured⟩ := by
      rw [agg_pairs_append cfg xs ys ⟨[], [], []⟩, hstx]
      show agg_pairs cfg ⟨lx, sx, bx⟩ ys = _
      rw [agg_pairs_shift cfg ys lx sx bx, hsty]
      rfl
    refine ⟨_, _, hfull, hrest, ?_, ?_, rfl, rfl⟩
    · show (lx ++ [task_label tf ++ ": error " ++ ef.msg]) ++ sty.lines = _
      rw [hlx, hly, List.append_assoc, List.singleton_append]
    · show lx ++ sty.lines = _
      rw [hlx, hly]

/-- C2 (witness): a three-task batch whose middle call fails. -/
theorem c2_failure_isolation_witness :
    ∃ st st0,
      agg_pairs cfg_empty ⟨[], [], []⟩
          ([(c2_ok_task, Except.ok (PyVal.dict []))] ++
            (c2_fail_task, Except.error ⟨.runtimeError, "boom"⟩) ::
            [(c2_ok_task, Except.ok (PyVal.dict []))]) = Except.ok st ∧
      agg_pairs cfg_empty ⟨[], [], []⟩
          ([(c2_ok_task, Except.ok (PyVal.dict []))] ++
            [(c2_ok_task, Except.ok (PyVal.dict []))]) = Except.ok st0 ∧
      st.lines = [(c2_ok_task, Except.ok (PyVal.dict []))].map pair_line ++
        (task_label c2_fail_task ++ ": error " ++ "boom") ::
          [(c2_ok_task, Except.ok (PyVal.dict []))].map pair_line ∧
      st0.lines = [(c2_ok_task, Except.ok (PyVal.dict []))].map pair_line ++
        [(c2_ok_task, Except.ok (PyVal.dict []))].map pair_line ∧
      st.structured = st0.structured ∧
      st.sources = st0.sources :=
  (c2_failure_isolation cfg_empty
    [(c2_ok_task, Except.ok (PyVal.dict []))]
    [(c2_ok_task, Except.ok (PyVal.dict []))]
    c2_fail_task ⟨.runtimeError, "boom"⟩
    (by
      intro p hp
      rcases List.mem_append.mp hp with hm | hm <;>
        rcases List.mem_singleton.mp hm with rfl <;>
        exact ⟨PyVal.dict [], rfl, rfl⟩)).2

/-- The issue-tracker round-trip payload of the testable property. -/
def c8_payload : PyVal :=
  .dict [("issues", .list [.dict [("key", .str "X-1"), ("summary", .str "S"),
                                  ("self", .str "http://x")]])]

/-- The single issue-tracker task the payload is aggregated for. -/
def c8_task : Task := ⟨"jira", "search_issues", Option.none, []⟩

/-- A configuration with a Jira base URL set. -/
def cfg_jira : Settings := ⟨"", "", "https://jira.example.com", ""⟩

/-- C8 (confirmed): aggregating the payload for a single issue-tracker task
produces the bucket `jira_issues` with exactly one record of key `X-1` and
summary `S`; its url is the raw self link when no base URL is configured and
the constructed browse link when one is, and it is non-empty either way. -/
theorem c8_round_trip_bucket :
    (aggregate cfg_empty [c8_task] [.ok c8_payload] =
      .ok ⟨["jira.search_issues: 1 results"],
           [⟨1, "http://x", ""⟩],
           [("jira_issues",
             [.dict [("id", PyVal.none), ("key", .str "X-1"),
                     ("summary", .str "S"), ("description", .str ""),
                     ("url", .str "http://x")]])]⟩) ∧
    (aggregate cfg_jira [c8_task] [.ok c8_payload] =
      .ok ⟨["jira.search_issues: 1 results"],
           [⟨1, "http://x", ""⟩],
           [("jira_issues",
             [.dict [("id", PyVal.none), ("key", .str "X-1"),
                     ("summary", .str "S"), ("description", .str ""),
                     ("url", .str "https://jira.example.com/browse/X-1")]])]⟩) ∧
    ("http://x" : String) ≠ "" ∧
    ("https://jira.example.com/browse/X-1" : String) ≠ "" :=
  ⟨rfl, rfl, by decide, by decide⟩

/-- The first C10 payload: a raw `issues` array (citation fast path). -/
def c10_payload1 : PyVal :=
  .dict [("issues", .list [.dict [("key", .str "A-1"),
                                  ("summary", .str "First"),
                                  ("self", .str "http://a")]])]

/-- The second C10 payload: a create-style `issue` wrapper, which exposes no
raw `issues` array, so its citations fall back to the structured buckets. -/
def c10_payload2 : PyVal :=
  .dict [("issue", .dict [("key", .str "B-2"), ("summary", .str "Second"),
                          ("self", .str "http://b")])]

/-- The record normalized from the first C10 payload. -/
def c10_rec1 : PyVal :=
  .dict [("id", PyVal.none), ("key", .str "A-1"), ("summary", .str "First"),
         ("description", .str ""), ("url", .str "http://a")]

/-- The record normalized from the second C10 payload. -/
def c10_rec2 : PyVal :=
  .dict [("id", PyVal.none), ("key", .str "B-2"), ("summary", .str "Second"),
         ("description", .str ""), ("url", .str "http://b")]

/-- C10 (confirmed): citations for a task without a raw issues array come
from the provider's buckets accumulated so far — in the concrete run below,
the second task's first citation (`chunk_id` 1, locator `http://a`) describes
the record normalized from the first task — and in every run each task
contributes at most five citations, every preview within 200 characters. -/
theorem c10_citation_fallback :
    (∀ (cfg : Settings) (tasks : List Task)
        (results : List (Except PyExc PyVal)) (st : AggState),
      aggregate cfg tasks results = .ok st →
      st.sources.length ≤ 5 * (tasks.zip results).length ∧
        ∀ s ∈ st.sources, s.content_preview.length ≤ 200) ∧
    aggregate cfg_empty
        [⟨"jira", "search_issues", Option.none, []⟩,
         ⟨"jira", "create_issue", Option.none, []⟩]
        [.ok c10_payload1, .ok c10_payload2] =
      .ok ⟨["jira.search_issues: 1 results", "jira.create_issue: 1 results"],
           [⟨1, "http://a", ""⟩, ⟨1, "http://a", ""⟩, ⟨2, "http://b", ""⟩],
           [("jira_issues", [c10_rec1, c10_rec2])]⟩ := by
  constructor
  · intro cfg tasks results st h
    have hb := agg_pairs_bounds cfg (tasks.zip results) ⟨[], [], []⟩ st h
    refine ⟨by simpa using hb.1, ?_⟩
    intro s hs
    rcases hb.2 s hs with hm | hbnd
    · exact absurd hm (List.not_mem_nil s)
    · exact hbnd
  · rfl

/-- C10 (witness): the bounds at the concrete two-task run. -/
theorem c10_citation_fallback_witness :
    (([⟨1, "http://a", ""⟩, ⟨1, "http://a", ""⟩, ⟨2, "http://b", ""⟩]
        : List SourceInfo).length ≤
      5 * (([⟨"jira", "search_issues", Option.none, []⟩,
             ⟨"jira", "create_issue", Option.none, []⟩] : List Task).zip
            [(Except.ok c10_payload1 : Except PyExc PyVal),
             .ok c10_payload2]).length) ∧
    ∀ s ∈ ([⟨1, "http://a", ""⟩, ⟨1, "http://a", ""⟩, ⟨2, "http://b", ""⟩]
        : List SourceInfo), s.content_preview.length ≤ 200 :=
  c10_citation_fallback.1 cfg_empty
    [⟨"jira", "search_issues", Option.none, []⟩,
     ⟨"jira", "create_issue", Option.none, []⟩]
    [.ok c10_payload1, .ok c10_payload2] _ c10_citation_fallback.2

/-- The direct-create message of the testable property. -/
def c3_message : String :=
  "create a bug title - Login fails, description - cannot log in"

/-- Parsing the C3 message yields the title and description captures. -/
theorem c3_message_parse :
    parse_title_description c3_message =
      (some "Login fails", some "cannot log in") := rfl

/-- The arguments planned by the direct-create branch for the C3 message:
the regex captures, the fixed issue type, and the configured project key. -/
theorem plan_direct_create_c3_args (cfg : Settings) (cat : Catalog) :
    (plan_direct_create cfg cat c3_message).args =
      [("project_key", .str cfg.JIRA_DEFAULT_PROJECT_KEY),
       ("summary", .str "Login fails"),
       ("description", .str "cannot log in"),
       ("issue_type", .str "Bug")] := by
  have hif : (if cfg.JIRA_DEFAULT_PROJECT_KEY ≠ "" then
      cfg.JIRA_DEFAULT_PROJECT_KEY else "") = cfg.JIRA_DEFAULT_PROJECT_KEY := by
    by_cases hpk : cfg.JIRA_DEFAULT_PROJECT_KEY = "" <;> simp [hpk]
  simp only [plan_direct_create, c3_message_parse, hif]
  norm_num
  constructor <;> intro h <;> exact absurd h (by decide)

/-- C3 (amended): whenever direct-create intent is detected and the issue
tracker is allowed, the planner returns exactly the direct-create task and no
other branch contributes; for the C3 message that task's argument map is the
parsed summary and description with fixed type `Bug` together with the
configured project key (the claim's three-entry map omits `project_key`). -/
theorem c3_direct_create_plan (cfg : Settings) (cat : Catalog) (msg : String)
    (h1 : (provider_filter (pyLower msg)).1 = true)
    (h2 : wants_direct_create msg = true) :
    plan cfg cat msg = [plan_direct_create cfg cat msg] ∧
    (plan cfg cat c3_message).map Task.args =
      [[("project_key", .str cfg.JIRA_DEFAULT_PROJECT_KEY),
        ("summary", .str "Login fails"),
        ("description", .str "cannot log in"),
        ("issue_type", .str "Bug")]] := by
  constructor
  · unfold plan
    simp [h1, h2]
  · have hplan : plan cfg cat c3_message = [plan_direct_create cfg cat c3_message] := by
      unfold plan
      simp [show wants_direct_create c3_message = true from rfl,
        show (provider_filter (pyLower c3_message)).1 = true from rfl]
    rw [hplan, List.map_singleton, plan_direct_create_c3_args]

/-- C3 (witness): the direct-create plan for the C3 message, at an empty
configuration and catalog. -/
theorem c3_direct_create_plan_witness :
    (plan ⟨"", "", "", "PROJ"⟩ ⟨[], []⟩ c3_message).map Task.args =
      [[("project_key", .str "PROJ"),
        ("summary", .str "Login fails"),
        ("description", .str "cannot log in"),
        ("issue_type", .str "Bug")]] :=
  (c3_direct_create_plan ⟨"", "", "", "PROJ"⟩ ⟨[], []⟩ c3_message rfl rfl).2

/-- C3 (counterexample): the planned argument map carries the key
`project_key` in addition to the three keys the claim lists, so it is not
the claimed three-entry map. -/
theorem c3_direct_create_counterexample :
    (plan ⟨"", "", "", ""⟩ ⟨[], []⟩ c3_message).map
        (fun t => t.args.map Prod.fst) =
      [["project_key", "summary", "description", "issue_type"]] ∧
    ["project_key", "summary", "description", "issue_type"] ≠
      ["summary", "description", "issue_type"] := by
  exact ⟨rfl, by decide⟩

/-- A catalog exposing the commit tools used by the commit-planning claims. -/
def cat_commits : Catalog :=
  ⟨[], [[("name", .str "list_commits")], [("name", .str "get_commit")]]⟩

/-- The generic commit-history message of the testable property. -/
def c7_message_history : String := "list commits for repo:acme/widgets"

/-- The same message with an explicit SHA and commit-details phrasing. -/
def c7_message_lookup : String :=
  "list commits for repo:acme/widgets show commit details abcdef1"

/-- Specific-commit intent suppresses the commit-history branch. -/
theorem plan_gh_list_commits_none_of_intent (cfg : Settings) (cat : Catalog)
    (msg : String) (h : specific_commit_intent (pyLower msg) = true) :
    plan_gh_list_commits cfg cat msg = Option.none := by
  cases hr : resolve_tool_name cat.github ["list_commits", "listCommits"]
      ["commit"] with
  | none => simp [plan_gh_list_commits, hr]
  | some tn => simp [plan_gh_list_commits, hr, h]

/-- Without specific-commit intent the single-commit-lookup branch is off. -/
theorem plan_gh_get_commit_none_of_no_intent (cfg : Settings) (cat : Catalog)
    (msg : String) (h : specific_commit_intent (pyLower msg) = false) :
    plan_gh_get_commit cfg cat msg = Option.none := by
  cases hr : resolve_tool_name cat.github ["get_commit", "getCommit"]
      ["commit"] with
  | none => simp [plan_gh_get_commit, hr]
  | some tn => simp [plan_gh_get_commit, hr, h]

/-- C7 (confirmed): the commit-history and single-commit-lookup branches are
mutually exclusive (specific-commit intent suppresses the history branch, and
its absence disables the lookup branch), so no plan carries both; the generic
history message plans exactly the commit-history task with owner `acme` and
repo `widgets`, while the SHA variant plans exactly the lookup task with the
hex token as the commit reference. -/
theorem c7_commit_branch_exclusion :
    (∀ (cfg : Settings) (cat : Catalog) (msg : String),
      specific_commit_intent (pyLower msg) = true →
      plan_gh_list_commits cfg cat msg = Option.none) ∧
    (∀ (cfg : Settings) (cat : Catalog) (msg : String),
      plan_gh_list_commits cfg cat msg = Option.none ∨
      plan_gh_get_commit cfg cat msg = Option.none) ∧
    plan cfg_empty cat_commits c7_message_history =
      [{ provider := "github", tool := "list_commits",
         meta := some [("name", .str "list_commits")],
         args := [("owner", .str "acme"), ("repo", .str "widgets"),
                  ("perPage", .int 30)] }] ∧
    plan cfg_empty cat_commits c7_message_lookup =
      [{ provider := "github", tool := "get_commit",
         meta := some [("name", .str "get_commit")],
         args := [("owner", .str "acme"), ("repo", .str "widgets"),
                  ("ref", .str "abcdef1")] }] := by
  refine ⟨plan_gh_list_commits_none_of_intent, ?_, rfl, rfl⟩
  intro cfg cat msg
  cases h : specific_commit_intent (pyLower msg) with
  | true => exact Or.inl (plan_gh_list_commits_none_of_intent cfg cat msg h)
  | false => exact Or.inr (plan_gh_get_commit_none_of_no_intent cfg cat msg h)

/-- C7 (witness): the SHA variant indeed has specific-commit intent, and the
history branch is suppressed on it. -/
theorem c7_commit_branch_exclusion_witness :
    specific_commit_intent (pyLower c7_message_lookup) = true ∧
    plan_gh_list_commits cfg_empty cat_commits c7_message_lookup =
      Option.none :=
  ⟨rfl, c7_commit_branch_exclusion.1 cfg_empty cat_commits c7_message_lookup rfl⟩

/-! Lemmas about `chooseKey` and the Jira pass-through candidate, for the
argument-adapter claims. -/

theorem find?_eq_of_mem_unique {p : String → Bool} :
    ∀ (l : List String) (a : String), a ∈ l → p a = true →
      (∀ x ∈ l, p x = true → x = a) → l.find? p = some a := by
  intro l
  induction l with
  | nil => intro a ha; cases ha
  | cons x xs ih =>
    intro a ha hpa hall
    by_cases hx : p x = true
    · rw [List.find?_cons_of_pos _ hx, hall x (List.mem_cons_self _ _) hx]
    · rw [List.find?_cons_of_neg _ (by simpa using hx)]
      refine ih a ?_ hpa (fun y hy hpy => hall y (List.mem_cons_of_mem _ hy) hpy)
      rcases List.mem_cons.mp ha with rfl | h2
      · exact absurd hpa hx
      · exact h2

/-- When `c` is a schema key and no other key collides with it up to case,
the lower-cased index resolves `c` to itself. -/
theorem keysLowerGet_self (sk : List String) (c : String)
    (h1 : c ∈ sk) (h3 : ∀ k ∈ sk, pyLower k = pyLower c → k = c) :
    keysLowerGet sk c = some c := by
  unfold keysLowerGet
  refine find?_eq_of_mem_unique sk.reverse c (List.mem_reverse.mpr h1)
    (by simp) ?_
  intro x hx hpx
  exact h3 x (List.mem_reverse.mp hx) (by simpa using hpx)

/-- The first candidate wins in `choose_key` when it resolves to itself. -/
theorem chooseKey_first_hit (sk : List String) (c : String)
    (rest : List String) (dflt : String)
    (hc : keysLowerGet sk c = some c) (hne : c ≠ "") :
    chooseKey sk (c :: rest) dflt = c := by
  unfold chooseKey
  rw [List.findSome?_cons]
  simp [hc, hne]

/-- The pass-through candidate keeps the lower-casing of its source key
whenever the snake/camel special cases do not apply. -/
theorem jiraPassCandidate_lower (sk : List String) (k : String)
    (h1 : k ≠ "project_key") (h2 : k ≠ "projectKey")
    (h3 : k ≠ "issue_type") (h4 : k ≠ "issueType") :
    pyLower (jiraPassCandidate sk k) = pyLower k := by
  unfold jiraPassCandidate
  cases hk : keysLowerGet sk k with
  | none => simp [h1, h2, h3, h4]
  | some k2 =>
    have hl := keysLowerGet_lower sk k k2 hk
    by_cases he : k2 = ""
    · simp [he, h1, h2, h3, h4]
    · by_cases hkk : k2 = k
      · simp [he, hkk, h1, h2, h3, h4]
      · simp [he, hkk, hl]

/-- One unrolling of the Jira pass-through loop, with the step function
beta-reduced so the conditional is exposed. -/
theorem jira_fold_cons (sk : List String) (acc : PyDict) (k : String)
    (w : PyVal) (rest : List (String × PyVal)) :
    List.foldl (fun acc kv => if hasKey acc kv.1 then acc
        else dset acc (jiraPassCandidate sk kv.1) kv.2) acc ((k, w) :: rest) =
      List.foldl (fun acc kv => if hasKey acc kv.1 then acc
        else dset acc (jiraPassCandidate sk kv.1) kv.2)
        (if hasKey acc k then acc else dset acc (jiraPassCandidate sk k) w)
        rest := rfl

/-- The schema of the C4 counterexample: two properties that collide on
their lower-casing `maxresults`. -/
def c4_meta : PyDict :=
  [("input_schema", .dict [("properties",
     .dict [("maxResults", .dict []), ("MaxResults", .dict [])])])]

/-- C4 (counterexample): the schema lists `maxResults` (and not `limit`),
yet adaptation emits the key `MaxResults` — the lower-cased index is built
with the last colliding property winning — so the result holds no
`maxResults` key at all. -/
theorem c4_limit_mapping_counterexample :
    extract_schema_keys (some c4_meta) = ["maxResults", "MaxResults"] ∧
    adapt_arguments cfg_empty "jira" (some c4_meta)
        [("jql", .str "q"), ("limit", .int 10)] =
      [("MaxResults", .int 10)] ∧
    dget (adapt_arguments cfg_empty "jira" (some c4_meta)
        [("jql", .str "q"), ("limit", .int 10)]) "maxResults" =
      Option.none := ⟨rfl, rfl, rfl⟩

/-- C4 (amended): when the declared property set contains `maxResults`, does
not contain `limit`, and contains no other property equal to `maxResults` up
to case, adapting `{jql: v, limit: 10}` for the issue tracker produces
`maxResults = 10` and drops the `limit` key. -/
theorem c4_limit_schema_mapping (cfg : Settings) (meta : Option PyDict)
    (v : PyVal)
    (h1 : "maxResults" ∈ extract_schema_keys meta)
    (h2 : "limit" ∉ extract_schema_keys meta)
    (h3 : ∀ k ∈ extract_schema_keys meta,
      pyLower k = pyLower "maxResults" → k = "maxResults") :
    dget (adapt_arguments cfg "jira" meta [("jql", v), ("limit", .int 10)])
      "maxResults" = some (.int 10) ∧
    dget (adapt_arguments cfg "jira" meta [("jql", v), ("limit", .int 10)])
      "limit" = Option.none := by
  set sk := extract_schema_keys meta with hsk
  have hskne : sk.isEmpty = false := by
    cases hcase : sk
    · rw [hcase] at h1; cases h1
    · rfl
  have hflt : adapt_arguments cfg "jira" meta [("jql", v), ("limit", .int 10)] =
      (adapt_jira sk [("jql", v), ("limit", .int 10)]).filter
        (fun kv => kv.1 ∈ sk) := by
    simp only [adapt_arguments, ← hsk, hskne]
    simp
  rw [hflt, dget_filter_schema, dget_filter_schema, if_pos h1, if_neg h2]
  refine ⟨?_, rfl⟩
  have hmaxk : chooseKey sk ["maxResults", "max_results", "limit"]
      "maxResults" = "maxResults" :=
    chooseKey_first_hit sk "maxResults" _ _
      (keysLowerGet_self sk "maxResults" h1 h3) (by decide)
  set jqlKey := chooseKey sk ["jql", "query", "jqlQuery"] "jql" with hjk
  have hpool := chooseKey_lower_mem sk ["jql", "query", "jqlQuery"] "jql"
  rw [← hjk] at hpool
  have hjm : jqlKey ≠ "maxResults" := by
    intro he; rw [he] at hpool; exact absurd hpool (by decide)
  have hjl : jqlKey ≠ "limit" := by
    intro he; rw [he] at hpool; exact absurd hpool (by decide)
  have hc1low : pyLower (jiraPassCandidate sk "jql") = pyLower "jql" :=
    jiraPassCandidate_lower sk "jql" (by decide) (by decide) (by decide)
      (by decide)
  have hc2low : pyLower (jiraPassCandidate sk "limit") = pyLower "limit" :=
    jiraPassCandidate_lower sk "limit" (by decide) (by decide) (by decide)
      (by decide)
  have hc1m : jiraPassCandidate sk "jql" ≠ "maxResults" := by
    intro he; rw [he] at hc1low; exact absurd hc1low (by decide)
  have hc1l : jiraPassCandidate sk "jql" ≠ "limit" := by
    intro he; rw [he] at hc1low; exact absurd hc1low (by decide)
  have hc2m : jiraPassCandidate sk "limit" ≠ "maxResults" := by
    intro he; rw [he] at hc2low; exact absurd hc2low (by decide)
  have ha2 : adapt_jira_a2 sk [("jql", v), ("limit", .int 10)] =
      [(jqlKey, v)] := rfl
  have ha3 : adapt_jira_a3 sk [("jql", v), ("limit", .int 10)] =
      [(jqlKey, v), ("maxResults", .int 10)] := by
    unfold adapt_jira_a3
    rw [show dget [("jql", v), ("limit", PyVal.int 10)] "limit" =
      some (.int 10) from rfl]
    rw [ha2, hmaxk]
    have hhk : hasKey [(jqlKey, v)] "maxResults" = false := by
      simp [hasKey, dget_cons, hjm, dget_nil]
    rw [hhk]
    simp [dset, hjm]
  unfold adapt_jira
  rw [ha3, jira_fold_cons]
  by_cases hj : jqlKey = "jql"
  · have hk1 : hasKey [(jqlKey, v), ("maxResults", PyVal.int 10)] "jql" = true := by
      simp [hasKey, dget_cons, hj]
    rw [if_pos hk1, jira_fold_cons]
    have hk2 : hasKey [(jqlKey, v), ("maxResults", PyVal.int 10)] "limit" = false := by
      simp [hasKey, dget_cons, hjl, dget_nil]
    rw [if_neg (by simp [hk2]), List.foldl_nil]
    rw [dget_dset_ne _ _ _ _ (Ne.symm hc2m)]
    simp [dget_cons, hjm]
  · have hk1 : hasKey [(jqlKey, v), ("maxResults", PyVal.int 10)] "jql" = false := by
      simp [hasKey, dget_cons, hj, dget_nil]
    rw [if_neg (by simp [hk1]), jira_fold_cons]
    have hk2 : hasKey
        (dset [(jqlKey, v), ("maxResults", PyVal.int 10)]
          (jiraPassCandidate sk "jql") v) "limit" = false := by
      unfold hasKey
      rw [dget_dset_ne _ _ _ _ (Ne.symm hc1l)]
      simp [dget_cons, hjl, dget_nil]
    rw [if_neg (by simp [hk2]), List.foldl_nil]
    rw [dget_dset_ne _ _ _ _ (Ne.symm hc2m),
      dget_dset_ne _ _ _ _ (Ne.symm hc1m)]
    simp [dget_cons, hjm]

/-- C4 (witness): a schema listing exactly `maxResults` and `jql`. -/
theorem c4_limit_schema_mapping_witness :
    dget (adapt_arguments cfg_empty "jira"
        (some [("input_schema", .dict [("properties",
           .dict [("maxResults", .dict []), ("jql", .dict [])])])])
        [("jql", .str "q"), ("limit", .int 10)]) "maxResults" =
      some (.int 10) ∧
    dget (adapt_arguments cfg_empty "jira"
        (some [("input_schema", .dict [("properties",
           .dict [("maxResults", .dict []), ("jql", .dict [])])])])
        [("jql", .str "q"), ("limit", .int 10)]) "limit" = Option.none :=
  c4_limit_schema_mapping cfg_empty
    (some [("input_schema", .dict [("properties",
       .dict [("maxResults", .dict []), ("jql", .dict [])])])])
    (.str "q") (by decide) (by decide) (by decide)

/-- C9 (witness): matched tokens precede the configured default and the
URL-derived pair, deduplicated case-insensitively. -/
theorem c9_repo_filter_order_witness :
    (parse_repo_filters
        ⟨"foo/bar", "https://github.com/acme/widgets", "", ""⟩
        "check repo:Acme/Widgets and repo:acme/widgets please").Pairwise
      (fun a b => pyLower a ≠ pyLower b) :=
  (c9_repo_filter_order
    ⟨"foo/bar", "https://github.com/acme/widgets", "", ""⟩
    "check repo:Acme/Widgets and repo:acme/widgets please"
    (by decide)).2.2.2.1

/-- A token prefixed by the scoping step survives the surrounding strip. -/
theorem strip_keeps_token (q0 : String) :
    strIn "repo:acme/widgets" (pyStrip ("repo:acme/widgets " ++ q0)) = true := by
  have htl : (pyStrip ("repo:acme/widgets " ++ q0)).toList =
      ((("repo:acme/widgets ".toList ++ q0.toList).dropWhile
        isPySpace).reverse.dropWhile isPySpace).reverse := rfl
  unfold strIn
  rw [decide_eq_true_eq, htl]
  have hd1 : ("repo:acme/widgets ".toList ++ q0.toList).dropWhile isPySpace =
      "repo:acme/widgets ".toList ++ q0.toList := by
    rw [List.dropWhile_append]
    rw [show ("repo:acme/widgets ".toList.dropWhile isPySpace) =
      "repo:acme/widgets ".toList from rfl]
    rw [show ("repo:acme/widgets ".toList).isEmpty = false from rfl]
    simp
  rw [hd1, List.reverse_append, List.dropWhile_append]
  by_cases hq : (q0.toList.reverse.dropWhile isPySpace).isEmpty = true
  · rw [if_pos hq]
    rw [show ("repo:acme/widgets ".toList.reverse.dropWhile isPySpace).reverse =
      "repo:acme/widgets".toList from rfl]
  · rw [if_neg hq, List.reverse_append, List.reverse_reverse]
    rw [show "repo:acme/widgets ".toList =
      "repo:acme/widgets".toList ++ [' '] from rfl]
    exact List.IsPrefix.isInfix
      ⟨' ' :: (q0.toList.reverse.dropWhile isPySpace).reverse, by simp⟩

/-- The limit fallback never touches a key other than the per-page slot. -/
theorem dget_adapt_github_b3_ne (sk : List String) (intended : PyDict)
    (k : String)
    (hk : k ≠ chooseKey sk ["perPage", "per_page", "limit"] "perPage") :
    dget (adapt_github_b3 sk intended) k =
      dget (adapt_github_b2 sk intended) k := by
  cases hlim : dget intended "limit" with
  | none => simp only [adapt_github_b3, hlim]
  | some w =>
    simp only [adapt_github_b3, hlim]
    by_cases hpp : (!hasKey (adapt_github_b2 sk intended)
        (chooseKey sk ["perPage", "per_page", "limit"] "perPage")) = true
    · rw [if_pos hpp]
      exact dget_dset_ne _ _ _ _ hk
    · rw [if_neg hpp]

/-- The first two GitHub translations leave the query slot holding exactly
the intended query value. -/
theorem dget_adapt_github_b2_query (sk : List String) (intended : PyDict) :
    dget (adapt_github_b2 sk intended) (chooseKey sk ["query", "q"] "query") =
      dget intended "query" := by
  have hpp : chooseKey sk ["query", "q"] "query" ≠
      chooseKey sk ["perPage", "per_page", "limit"] "perPage" :=
    chooseKey_ne_of_pools sk _ _ _ _ (by decide)
  unfold adapt_github_b2
  rw [dget_setArg_ne _ _ _ _ _ hpp]
  unfold setArg
  cases dget intended "query" with
  | none => rfl
  | some w => exact dget_dset_self _ _ _

/-- Through the whole GitHub per-key translation, the query slot holds
exactly the intended query value. -/
theorem adapt_github_base_query (sk : List String) (intended : PyDict) :
    dget (adapt_github_base sk intended) (chooseKey sk ["query", "q"] "query") =
      dget intended "query" := by
  have h1 : chooseKey sk ["query", "q"] "query" ≠
      chooseKey sk ["page"] "page" :=
    chooseKey_ne_of_pools sk _ _ _ _ (by decide)
  have h2 : chooseKey sk ["query", "q"] "query" ≠
      chooseKey sk ["sort"] "sort" :=
    chooseKey_ne_of_pools sk _ _ _ _ (by decide)
  have h3 : chooseKey sk ["query", "q"] "query" ≠
      chooseKey sk ["order", "direction"] "order" :=
    chooseKey_ne_of_pools sk _ _ _ _ (by decide)
  have h4 : chooseKey sk ["query", "q"] "query" ≠
      chooseKey sk ["path", "filePath"] "path" :=
    chooseKey_ne_of_pools sk _ _ _ _ (by decide)
  have h5 : chooseKey sk ["query", "q"] "query" ≠
      chooseKey sk ["ref", "sha", "commit"] "ref" :=
    chooseKey_ne_of_pools sk _ _ _ _ (by decide)
  have h6 : chooseKey sk ["query", "q"] "query" ≠
      chooseKey sk ["sha", "start_sha"] "sha" :=
    chooseKey_ne_of_pools sk _ _ _ _ (by decide)
  have h7 : chooseKey sk ["query", "q"] "query" ≠
      chooseKey sk ["repo", "repository"] "repo" :=
    chooseKey_ne_of_pools sk _ _ _ _ (by decide)
  have h8 : chooseKey sk ["query", "q"] "query" ≠
      chooseKey sk ["owner", "user", "org"] "owner" :=
    chooseKey_ne_of_pools sk _ _ _ _ (by decide)
  have h9 : chooseKey sk ["query", "q"] "query" ≠
      chooseKey sk ["perPage", "per_page", "limit"] "perPage" :=
    chooseKey_ne_of_pools sk _ _ _ _ (by decide)
  unfold adapt_github_base
  rw [dget_setArg_ne _ _ _ _ _ h1, dget_setArg_ne _ _ _ _ _ h2,
    dget_setArg_ne _ _ _ _ _ h3, dget_setArg_ne _ _ _ _ _ h4,
    dget_setArg_ne _ _ _ _ _ h5, dget_setArg_ne _ _ _ _ _ h6,
    dget_setArg_ne _ _ _ _ _ h7, dget_setArg_ne _ _ _ _ _ h8,
    dget_adapt_github_b3_ne sk intended _ h9]
  exact dget_adapt_github_b2_query sk intended

/-- The enforced scoping sets the repo slot to the enforced name. -/
theorem enforce_repo_scope_repo (sk : List String) (eo er : String)
    (args : PyDict) :
    dget (enforce_repo_scope sk eo er args)
      (chooseKey sk ["repo", "repository"] "repo") = some (.str er) := by
  simp only [enforce_repo_scope]
  exact dget_dset_self _ _ _

/-- The enforced scoping sets the owner slot to the enforced owner. -/
theorem enforce_repo_scope_owner (sk : List String) (eo er : String)
    (args : PyDict) :
    dget (enforce_repo_scope sk eo er args)
      (chooseKey sk ["owner", "user", "org"] "owner") = some (.str eo) := by
  have h1 : chooseKey sk ["owner", "user", "org"] "owner" ≠
      chooseKey sk ["repo", "repository"] "repo" :=
    chooseKey_ne_of_pools sk _ _ _ _ (by decide)
  simp only [enforce_repo_scope]
  rw [dget_dset_ne _ _ _ _ h1]
  exact dget_dset_self _ _ _

/-- Any string held in the query slot after the enforced scoping contains
the repo token. -/
theorem enforce_repo_scope_query (sk : List String) (eo er : String)
    (args : PyDict) (q : String)
    (h : dget (enforce_repo_scope sk eo er args)
        (chooseKey sk ["query", "q"] "query") = some (.str q))
    (htok : ∀ q0 : String,
      strIn ("repo:" ++ eo ++ "/" ++ er)
        (pyStrip ("repo:" ++ eo ++ "/" ++ er ++ " " ++ q0)) = true) :
    strIn ("repo:" ++ eo ++ "/" ++ er) q = true := by
  have h1 : chooseKey sk ["query", "q"] "query" ≠
      chooseKey sk ["owner", "user", "org"] "owner" :=
    chooseKey_ne_of_pools sk _ _ _ _ (by decide)
  have h2 : chooseKey sk ["query", "q"] "query" ≠
      chooseKey sk ["repo", "repository"] "repo" :=
    chooseKey_ne_of_pools sk _ _ _ _ (by decide)
  simp only [enforce_repo_scope] at h
  rw [dget_dset_ne _ _ _ _ h2, dget_dset_ne _ _ _ _ h1] at h
  cases hargs : dget args (chooseKey sk ["query", "q"] "query") with
  | none =>
    rw [hargs] at h
    replace h : dget args (chooseKey sk ["query", "q"] "query") =
        some (.str q) := h
    rw [hargs] at h
    exact Option.noConfusion h
  | some w =>
    rw [hargs] at h
    cases w with
    | str q0 =>
      replace h : dget
          (if strIn ("repo:" ++ eo ++ "/" ++ er) q0 then args
           else dset args (chooseKey sk ["query", "q"] "query")
             (.str (pyStrip ("repo:" ++ eo ++ "/" ++ er ++ " " ++ q0))))
          (chooseKey sk ["query", "q"] "query") = some (.str q) := h
      by_cases hin : strIn ("repo:" ++ eo ++ "/" ++ er) q0 = true
      · rw [if_pos hin, hargs] at h
        injection h with h2
        injection h2 with h3
        subst h3
        exact hin
      · rw [if_neg hin, dget_dset_self] at h
        injection h with h2
        injection h2 with h3
        subst h3
        exact htok q0
    | none =>
      replace h : dget args (chooseKey sk ["query", "q"] "query") =
          some (.str q) := h
      rw [hargs] at h
      injection h with h2
      exact PyVal.noConfusion h2
    | bool b =>
      replace h : dget args (chooseKey sk ["query", "q"] "query") =
          some (.str q) := h
      rw [hargs] at h
      injection h with h2
      exact PyVal.noConfusion h2
    | int n =>
      replace h : dget args (chooseKey sk ["query", "q"] "query") =
          some (.str q) := h
      rw [hargs] at h
      injection h with h2
      exact PyVal.noConfusion h2
    | list l =>
      replace h : dget args (chooseKey sk ["query", "q"] "query") =
          some (.str q) := h
      rw [hargs] at h
      injection h with h2
      exact PyVal.noConfusion h2
    | dict d =>
      replace h : dget args (chooseKey sk ["query", "q"] "query") =
          some (.str q) := h
      rw [hargs] at h
      injection h with h2
      exact PyVal.noConfusion h2

/-- With the enforced URL configured, the GitHub adaptation is the base
translation followed by enforced scoping to acme/widgets. -/
theorem adapt_github_enforced (cfg : Settings) (sk : List String)
    (intended : PyDict)
    (hurl : cfg.GITHUB_REPO_URL = "https://github.com/acme/widgets") :
    adapt_github cfg sk intended =
      enforce_repo_scope sk "acme" "widgets" (adapt_github_base sk intended) := by
  simp only [adapt_github, hurl]
  rfl

/-- The GitHub dispatch of `_adapt_arguments`: translation then the
schema filter. -/
theorem adapt_arguments_github (cfg : Settings) (meta : Option PyDict)
    (intended : PyDict) :
    adapt_arguments cfg "github" meta intended =
      (if (extract_schema_keys meta).isEmpty then
        adapt_github cfg (extract_schema_keys meta) intended
      else
        (adapt_github cfg (extract_schema_keys meta) intended).filter
          (fun kv => kv.1 ∈ extract_schema_keys meta)) := by
  simp only [adapt_arguments]
  simp

/-- A GitHub configuration whose enforced repository URL is acme/widgets. -/
def cfg5 : Settings := ⟨"", "https://github.com/acme/widgets", "", ""⟩

/-- C5 (counterexample): with the enforced URL configured and a tool schema
exposing only `query`, the owner and repo arguments supplied by the planner
are dropped by the schema filter rather than set to acme/widgets — the
adapted map has no owner or repo key at all, only the prefixed query. -/
theorem c5_enforced_repo_scope_counterexample :
    adapt_arguments cfg5 "github"
        (some [("input_schema", .dict [("properties",
           .dict [("query", .dict [])])])])
        [("owner", .str "foo"), ("repo", .str "bar"),
         ("query", .str "hello")] =
      [("query", .str "repo:acme/widgets hello")] := rfl

/-- C5 (amended): with the enforced repository URL configured as
https://github.com/acme/widgets, any string value left in the resolved query
slot after adaptation contains the token repo:acme/widgets; the owner and
repo arguments are forced to acme and widgets when the schema is unknown, and
likewise whenever the resolved owner and repo keys survive the schema filter
— but a schema that omits them drops them entirely. -/
theorem c5_enforced_repo_scope (cfg : Settings) (meta : Option PyDict)
    (intended : PyDict)
    (hurl : cfg.GITHUB_REPO_URL = "https://github.com/acme/widgets") :
    (∀ q : String,
      dget (adapt_arguments cfg "github" meta intended)
          (chooseKey (extract_schema_keys meta) ["query", "q"] "query") =
        some (.str q) → strIn "repo:acme/widgets" q = true) ∧
    (extract_schema_keys meta = [] →
      dget (adapt_arguments cfg "github" meta intended) "owner" =
          some (.str "acme") ∧
        dget (adapt_arguments cfg "github" meta intended) "repo" =
          some (.str "widgets")) ∧
    (chooseKey (extract_schema_keys meta) ["owner", "user", "org"] "owner" ∈
        extract_schema_keys meta →
      dget (adapt_arguments cfg "github" meta intended)
          (chooseKey (extract_schema_keys meta) ["owner", "user", "org"]
            "owner") = some (.str "acme")) ∧
    (chooseKey (extract_schema_keys meta) ["repo", "repository"] "repo" ∈
        extract_schema_keys meta →
      dget (adapt_arguments cfg "github" meta intended)
          (chooseKey (extract_schema_keys meta) ["repo", "repository"]
            "repo") = some (.str "widgets")) := by
  have hgl := adapt_arguments_github cfg meta intended
  rw [adapt_github_enforced cfg _ intended hurl] at hgl
  refine ⟨?_, ?_, ?_, ?_⟩
  · intro q hq
    rw [hgl] at hq
    by_cases hemp : (extract_schema_keys meta).isEmpty = true
    · rw [if_pos hemp] at hq
      exact enforce_repo_scope_query _ "acme" "widgets" _ q hq
        (fun q0 => strip_keeps_token q0)
    · rw [if_neg hemp, dget_filter_schema] at hq
      by_cases hmem : chooseKey (extract_schema_keys meta) ["query", "q"]
          "query" ∈ extract_schema_keys meta
      · rw [if_pos hmem] at hq
        exact enforce_repo_scope_query _ "acme" "widgets" _ q hq
          (fun q0 => strip_keeps_token q0)
      · rw [if_neg hmem] at hq
        exact Option.noConfusion hq
  · intro hnil
    rw [hgl, hnil]
    simp only [List.isEmpty_nil, if_true]
    exact ⟨enforce_repo_scope_owner [] "acme" "widgets" _,
      enforce_repo_scope_repo [] "acme" "widgets" _⟩
  · intro hmem
    have hemp : (extract_schema_keys meta).isEmpty = false := by
      cases hsk : extract_schema_keys meta with
      | nil => rw [hsk] at hmem; simp at hmem
      | cons a l => rfl
    rw [hgl, if_neg (by simp [hemp]), dget_filter_schema, if_pos hmem]
    exact enforce_repo_scope_owner _ "acme" "widgets" _
  · intro hmem
    have hemp : (extract_schema_keys meta).isEmpty = false := by
      cases hsk : extract_schema_keys meta with
      | nil => rw [hsk] at hmem; simp at hmem
      | cons a l => rfl
    rw [hgl, if_neg (by simp [hemp]), dget_filter_schema, if_pos hmem]
    exact enforce_repo_scope_repo _ "acme" "widgets" _

/-- C5 (witness): with no schema, the planner-supplied owner foo and repo bar
are overridden to acme and widgets. -/
theorem c5_enforced_repo_scope_witness :
    dget (adapt_arguments cfg5 "github" Option.none
        [("owner", .str "foo"), ("repo", .str "bar"),
         ("query", .str "hello")]) "owner" = some (.str "acme") ∧
    dget (adapt_arguments cfg5 "github" Option.none
        [("owner", .str "foo"), ("repo", .str "bar"),
         ("query", .str "hello")]) "repo" = some (.str "widgets") :=
  (c5_enforced_repo_scope cfg5 Option.none
      [("owner", .str "foo"), ("repo", .str "bar"), ("query", .str "hello")]
      rfl).2.1 rfl

end Dobb
